import Mathlib

/-!
# FluxaPay settlement pipeline — verification of the spec's claims

Shallow embedding of the settlement pipeline of the FluxaPay backend:

* `SweepService` (`src/fluxapay_backend/src/services/sweep.service.ts`):
  selection of unswept paid payments, per-payment sweep processing,
  dry-run handling, limit resolution.
* the payment monitor (`src/fluxapay_backend/src/services/paymentMonitor.service.ts`):
  bulk expiry, per-payment balance classification, cursor advancement,
  verification dispatch and event emission.
* `PaymentContractService.verify_payment`
  (`src/fluxapay_backend/src/services/paymentContract.service.ts`):
  bounded retry with exponential backoff.

The database is a `List Payment`; every external effect (Horizon calls,
Soroban submissions, key derivation) is an oracle supplied through an
environment structure, and the transactions actually submitted are
collected in an explicit trace so that frame properties ("no ledger
transaction is submitted") can be stated.

JavaScript numbers are modelled by `JNum`: a finite value is a rational,
and every non-finite value (`NaN`, `±Infinity`) is collapsed into one
constructor, which is exactly the granularity at which the code branches
(`Number.isFinite`). JavaScript string comparison (`>` on paging tokens)
is Lean's lexicographic `String` order.
-/

/-- Payment statuses occurring in the services under verification.
The database column is a string; these are the values the sweep and
monitor services read or write (`pending`, `partially_paid`, `confirmed`,
`overpaid`, `expired`, `failed`, and the legacy `paid` that the sweep
selection also accepts). -/
inductive PaymentStatus where
  | pending
  | partially_paid
  | confirmed
  | overpaid
  | expired
  | failed
  | paid
deriving DecidableEq, Repr

/-- A JavaScript number at the granularity the code distinguishes:
a finite value (as a rational) or a non-finite value (`NaN` / `±Infinity`),
which `Number.isFinite` rejects. -/
inductive JNum where
  | num (q : ℚ)
  | nonfinite
deriving DecidableEq, Repr

/-- The Payment row, restricted to the columns the settlement services
read or write. -/
structure Payment where
  id : String
  merchantId : String
  amount : JNum
  status : PaymentStatus
  expiration : Int
  stellar_address : Option String
  last_paging_token : Option String
  transaction_hash : Option String
  swept : Bool
  swept_at : Option Int
  sweep_tx_hash : Option String
  onchain_verified : Bool
  verification_error : Option String
  contract_tx_hash : Option String
  confirmed_at : Option Int
deriving DecidableEq, Repr

/-- `prisma.payment.update({ where: { id }, data: f })`: apply `f` to the
row(s) whose `id` matches. -/
def updateById (db : List Payment) (pid : String) (f : Payment → Payment) : List Payment :=
  db.map fun q => if q.id = pid then f q else q

namespace Sweep

/-- A regenerated custody keypair (`HDWalletService.regenerateKeypair`). -/
structure Keypair where
  publicKey : String
  secretKey : String
deriving DecidableEq, Repr

/-- External effects of the sweep service, supplied as oracles:
key re-derivation (may throw), transaction submission (may throw; the
source passes the amount formatted with `toFixed(7)`, modelled here by
the rational value itself), the vault public key, and the clock. -/
structure SweepEnv where
  regenerateKeypair : String → String → Except String Keypair
  submitTx : String → String → ℚ → Except String String
  vaultPublicKey : String
  now : Int

/-- A ledger submission attempt recorded in the trace:
the payment being swept, the signing secret, destination and amount
(`submitUsdcSweepTx` signs with `sourceSecret` and submits). -/
structure Submission where
  payment : Payment
  sourceSecret : String
  destination : String
  amount : ℚ
deriving DecidableEq, Repr

/-- The `where` clause of `getUnsweptPaidPayments`:
`swept: false`, `stellar_address: { not: null }`,
`status: { in: ["confirmed", "overpaid", "paid"] }`. -/
def sweepEligible (p : Payment) : Bool :=
  p.swept == false && p.stellar_address.isSome &&
    (p.status == .confirmed || p.status == .overpaid || p.status == .paid)

/-- `getUnsweptPaidPayments(limit)`: the eligible rows, capped at `limit`.
The query's `orderBy: { confirmed_at: "asc" }` is modelled by keeping the
store list in that order, so the query is filter-then-take. -/
def getUnsweptPaidPayments (limit : ℕ) (db : List Payment) : List Payment :=
  (db.filter sweepEligible).take limit

/-- Resolution of the per-run cap (`sweepPaidPayments`, lines 124–127):
`Number.isFinite(options.limit) && options.limit > 0 ? options.limit
: parseInt(process.env.SWEEP_BATCH_LIMIT || "200", 10)`. The environment
variable is modelled already parsed (`none` = unset, parse falls back to
`"200"`). -/
def effectiveLimit (optLimit : Option JNum) (sweepBatchLimitEnv : Option ℕ) : ℚ :=
  match optLimit with
  | some (.num q) => if 0 < q then q else (sweepBatchLimitEnv.getD 200 : ℕ)
  | _ => (sweepBatchLimitEnv.getD 200 : ℕ)

/-- Outcome of processing one selected payment inside the loop body. -/
inductive StepOutcome where
  | skip (reason : String)
  | swOk (hash : String) (amount : ℚ)
  | dryCount (amount : ℚ)
deriving DecidableEq, Repr

/-- Tail of the loop body after the amount and derivation checks passed:
dry run counts only; otherwise sign and submit (the attempt is recorded
in the trace even when submission throws). -/
def sweepFinish (env : SweepEnv) (dryRun : Bool) (p : Payment) (kp : Keypair) (expected : ℚ) :
    StepOutcome × List Submission :=
  if dryRun then (.dryCount expected, [])
  else
    let sub : Submission := ⟨p, kp.secretKey, env.vaultPublicKey, expected⟩
    match env.submitTx kp.secretKey env.vaultPublicKey expected with
    | .error e => (.skip e, [sub])
    | .ok h => (.swOk h expected, [sub])

/-- One iteration of the `for (const p of payments)` loop of
`sweepPaidPayments` (lines 145–192), up to the database write:
amount validation, key re-derivation (a thrown error is caught into a
skip), the derived-address check, dry-run short-circuit, submission. -/
def sweepStep (env : SweepEnv) (dryRun : Bool) (p : Payment) : StepOutcome × List Submission :=
  match p.amount with
  | .nonfinite => (.skip "Invalid amount", [])
  | .num expected =>
    if expected ≤ 0 then (.skip "Invalid amount", [])
    else
      match env.regenerateKeypair p.merchantId p.id with
      | .error e => (.skip e, [])
      | .ok kp =>
        match p.stellar_address with
        | some addr =>
          if kp.publicKey ≠ addr then (.skip "Derived address mismatch", [])
          else sweepFinish env dryRun p kp expected
        | none => sweepFinish env dryRun p kp expected

/-- The successful-sweep database write (lines 176–183):
`swept: true, swept_at: new Date(), sweep_tx_hash: hash`. -/
def markSwept (hash : String) (now : Int) (p : Payment) : Payment :=
  { p with swept := true, swept_at := some now, sweep_tx_hash := some hash }

/-- Mutable state threaded through the sweep loop: the store plus the
accumulators `txHashes`, `skipped`, `total`, `addressesSwept`, and the
trace of submission attempts. -/
structure RunState where
  db : List Payment
  txHashes : List String
  skipped : List (String × String)
  total : ℚ
  addressesSwept : ℕ
  submitted : List Submission
deriving Repr

/-- The sweep loop over the selected payments. -/
def sweepLoop (env : SweepEnv) (dryRun : Bool) : List Payment → RunState → RunState
  | [], s => s
  | p :: rest, s =>
    let os := sweepStep env dryRun p
    let s' : RunState :=
      match os.1 with
      | .skip r =>
        { s with skipped := s.skipped ++ [(p.id, r)], submitted := s.submitted ++ os.2 }
      | .dryCount a =>
        { s with addressesSwept := s.addressesSwept + 1, total := s.total + a,
                 submitted := s.submitted ++ os.2 }
      | .swOk h a =>
        { s with db := updateById s.db p.id (markSwept h env.now),
                 txHashes := s.txHashes ++ [h],
                 addressesSwept := s.addressesSwept + 1, total := s.total + a,
                 submitted := s.submitted ++ os.2 }
    sweepLoop env dryRun rest s'

/-- `SweepOptions`: all fields optional. -/
structure SweepOptions where
  limit : Option JNum := none
  adminId : Option String := none
  dryRun : Option Bool := none

/-- The caller-visible `SweepResult` (`sweepId`, `startedAt`,
`completedAt` are timestamps/identifiers with no claim content and are
omitted). -/
structure SweepResult where
  addressesSwept : ℕ
  totalAmount : ℚ
  masterVaultPublicKey : String
  txHashes : List String
  skipped : List (String × String)
deriving Repr

/-- A whole run: the returned result, the store after the run, and the
trace of ledger submission attempts. -/
structure SweepOutput where
  result : SweepResult
  db : List Payment
  submitted : List Submission

/-- The cap actually handed to `getUnsweptPaidPayments` (the resolved
limit is integral in every actual call; `take` receives it as a natural
number). -/
def runCap (options : SweepOptions) (sweepBatchLimitEnv : Option ℕ) : ℕ :=
  Int.toNat ⌊effectiveLimit options.limit sweepBatchLimitEnv⌋

/-- `sweepPaidPayments(options)` (lines 120–225). Audit-log calls
(`logSweepTrigger`, `updateSweepCompletion`) only mirror the accumulators
into a collaborator and are not modelled. `dryRun` is
`options.dryRun === true`. -/
def sweepPaidPayments (env : SweepEnv) (sweepBatchLimitEnv : Option ℕ)
    (options : SweepOptions) (db : List Payment) : SweepOutput :=
  let dryRun := options.dryRun == some true
  let payments := getUnsweptPaidPayments (runCap options sweepBatchLimitEnv) db
  let s := sweepLoop env dryRun payments ⟨db, [], [], 0, 0, []⟩
  { result := ⟨s.addressesSwept, s.total, env.vaultPublicKey, s.txHashes, s.skipped⟩,
    db := s.db, submitted := s.submitted }

/-- The hash recorded when processing `p` succeeded in submitting. -/
def stepHash (env : SweepEnv) (d : Bool) (p : Payment) : Option String :=
  match (sweepStep env d p).1 with
  | .swOk h _ => some h
  | _ => none

/-- The `skipped` entry contributed by processing `p`, when any. -/
def stepSkip (env : SweepEnv) (d : Bool) (p : Payment) : Option (String × String) :=
  match (sweepStep env d p).1 with
  | .skip r => some (p.id, r)
  | _ => none

/-- The contribution of processing `p` to the running `total`. -/
def stepAmount (env : SweepEnv) (d : Bool) (p : Payment) : ℚ :=
  match (sweepStep env d p).1 with
  | .skip _ => 0
  | .swOk _ a => a
  | .dryCount a => a

/-- Whether processing `p` increments `addressesSwept`. -/
def stepCounted (env : SweepEnv) (d : Bool) (p : Payment) : Bool :=
  match (sweepStep env d p).1 with
  | .skip _ => false
  | _ => true

/-- The store transformations the loop performs, separated from the
accumulators: only a successful submission writes (`markSwept`). -/
def applySweepUpdates (env : SweepEnv) (d : Bool) : List Payment → List Payment → List Payment
  | [], db => db
  | p :: rest, db =>
    applySweepUpdates env d rest
      (match (sweepStep env d p).1 with
       | .swOk h _ => updateById db p.id (markSwept h env.now)
       | _ => db)

/-- The validation gauntlet a selected payment passes before the loop is
willing to submit for it: a finite positive amount, a successful key
re-derivation, and a derived public key matching any stored address. -/
def sweepValid (env : SweepEnv) (p : Payment) : Bool :=
  match p.amount with
  | .nonfinite => false
  | .num q =>
    if q ≤ 0 then false
    else
      match env.regenerateKeypair p.merchantId p.id with
      | .error _ => false
      | .ok kp =>
        match p.stellar_address with
        | some addr => kp.publicKey == addr
        | none => true

/-- The finite amount of a payment (0 for a non-finite one; only read
under `sweepValid`). -/
def validAmount (p : Payment) : ℚ :=
  match p.amount with
  | .num q => q
  | .nonfinite => 0

end Sweep

namespace Monitor

/-- One entry of `account.balances` (the `'asset_code' in b` type guard of
the source is subsumed by modelling only entries that carry the field);
`balance` is the `parseFloat` of the balance string. -/
structure BalanceRecord where
  asset_code : String
  asset_issuer : String
  balance : ℚ
deriving DecidableEq, Repr

/-- One record of the Horizon payments page (`record.from` is modelled as
`sender`). -/
structure LedgerRecord where
  rtype : String
  asset_type : String
  asset_code : String
  asset_issuer : String
  paging_token : String
  transaction_hash : String
  sender : String
deriving DecidableEq, Repr

/-- What one tick observes for one address: the account's balances and
the page returned by the payments query (`order desc`, `limit 10`,
starting from the stored cursor when present). -/
structure AccountView where
  balances : List BalanceRecord
  records : List LedgerRecord
deriving Repr

/-- External effects of the monitor tick: the configured USDC issuer, the
combined Horizon fetch for an address and cursor (any thrown error — 404
or otherwise — is caught per payment with no store effect), and whether
the synchronous part of event emission throws for a given payment id. -/
structure MonitorEnv where
  usdcIssuer : String
  fetch : String → Option String → Except String AccountView
  emitFails : String → Bool

/-- JavaScript truthiness of a nullable string: `null`/`undefined` and
the empty string are falsy. -/
def strTruthy : Option String → Bool
  | none => false
  | some s => s ≠ ""

/-- `record.paging_token && (!latestPagingToken || record.paging_token >
latestPagingToken)` (line 81); JavaScript string `>` is the lexicographic
order. -/
def pagingTokenBeats (candidate : String) (cur : Option String) : Bool :=
  candidate ≠ "" && (!strTruthy cur || decide (cur.getD "" < candidate))

/-- The USDC-payment filter of the record loop (lines 85–88). -/
def isUsdcPayment (issuer : String) (r : LedgerRecord) : Bool :=
  r.rtype == "payment" && r.asset_type == "credit_alphanum4" &&
    r.asset_code == "USDC" && r.asset_issuer == issuer

/-- The running maximum cursor and earliest-matching transfer found while
walking the returned page. -/
structure ScanState where
  latestPagingToken : Option String
  latestTxHash : Option String
  latestPayer : Option String
deriving Repr

/-- Body of the `for (const record of transactions.records)` loop
(lines 80–95). -/
def scanRecord (issuer : String) (s : ScanState) (r : LedgerRecord) : ScanState :=
  let s1 := if pagingTokenBeats r.paging_token s.latestPagingToken
            then { s with latestPagingToken := some r.paging_token } else s
  if isUsdcPayment issuer r && !strTruthy s1.latestTxHash then
    { s1 with latestTxHash := some r.transaction_hash, latestPayer := some r.sender }
  else s1

/-- The scan the tick performs over one returned page, starting from the
stored cursor (lines 74–95). -/
def scanPage (issuer : String) (cursor : Option String) (records : List LedgerRecord) :
    ScanState :=
  records.foldl (scanRecord issuer) ⟨cursor, none, none⟩

/-- Cumulative USDC balance: the first matching balance entry, else 0
(lines 55–58). -/
def totalReceivedOf (issuer : String) (v : AccountView) : ℚ :=
  match v.balances.find? (fun b => b.asset_code == "USDC" && b.asset_issuer == issuer) with
  | some b => b.balance
  | none => 0

/-- Status classification from the cumulative balance (lines 98–105).
For a non-finite `expected` every `>=` comparison against it is false in
JavaScript (`NaN`, `Infinity`; a Decimal column cannot hold `-Infinity`),
so only the `totalReceived > 0` branch can fire. -/
def newStatusFor (expected : JNum) (totalReceived : ℚ) : Option PaymentStatus :=
  match expected with
  | .num e =>
    if totalReceived ≥ e then some (if totalReceived > e then .overpaid else .confirmed)
    else if totalReceived > 0 then some .partially_paid
    else none
  | .nonfinite => if totalReceived > 0 then some .partially_paid else none

/-- Store updates, verification dispatches and settled events produced by
processing one payment (or by a whole tick). A dispatch entry is the
argument triple handed to `verify_payment`; the call is not awaited, so
its own store effects happen outside the tick and a rejection is only
logged. -/
structure TickResult where
  db : List Payment
  dispatched : List (String × String × ℚ)
  emitted : List String
deriving Repr

/-- The row rewrite of the tick's main update (lines 109–116): status,
cursor and (when a new matching transfer was seen) transaction hash are
persisted together. -/
def applyStatusUpdate (ns : PaymentStatus) (scan : ScanState) (q : Payment) : Payment :=
  { q with status := ns, last_paging_token := scan.latestPagingToken,
           transaction_hash :=
             if strTruthy scan.latestTxHash then scan.latestTxHash
             else q.transaction_hash }

/-- The row rewrite of the cursor-only update (lines 143–146). -/
def applyCursorUpdate (scan : ScanState) (q : Payment) : Payment :=
  { q with last_paging_token := scan.latestPagingToken }

/-- The per-payment body of the tick loop (lines 48–154): fetch balances
and new records (errors caught, no store effect), scan the page, classify,
and persist status/cursor/hash together; dispatch verification and emit
the settled event on transition into `confirmed`/`overpaid` with a new
matching transfer; otherwise advance the cursor alone when it moved. -/
def processPayment (env : MonitorEnv) (db : List Payment) (p : Payment) : TickResult :=
  match p.stellar_address with
  | none => ⟨db, [], []⟩
  | some address =>
    match env.fetch address p.last_paging_token with
    | .error _ => ⟨db, [], []⟩
    | .ok view =>
      let totalReceived := totalReceivedOf env.usdcIssuer view
      let scan := scanPage env.usdcIssuer p.last_paging_token view.records
      let cursorOnly : TickResult :=
        if strTruthy scan.latestPagingToken ∧ scan.latestPagingToken ≠ p.last_paging_token then
          ⟨updateById db p.id (applyCursorUpdate scan), [], []⟩
        else ⟨db, [], []⟩
      match newStatusFor p.amount totalReceived with
      | some ns =>
        if ns ≠ p.status ∨ strTruthy scan.latestTxHash then
          let db1 := updateById db p.id (applyStatusUpdate ns scan)
          if (ns = .confirmed ∨ ns = .overpaid) ∧ strTruthy scan.latestTxHash then
            ⟨db1, [(p.id, scan.latestTxHash.getD "", totalReceived)],
             if env.emitFails p.id then [] else [p.id]⟩
          else ⟨db1, [], []⟩
        else cursorOnly
      | none => cursorOnly

/-- Step 1 of the tick (lines 31–37): the bulk `updateMany` that expires
stale `pending`/`partially_paid` rows, set-based, before any ledger call. -/
def expireStale (now : Int) (db : List Payment) : List Payment :=
  db.map fun p =>
    if (p.status = .pending ∨ p.status = .partially_paid) ∧ p.expiration ≤ now
    then { p with status := .expired } else p

/-- Step 2's selection (lines 40–46): active rows still monitored. -/
def activePayments (now : Int) (db : List Payment) : List Payment :=
  db.filter fun p =>
    (p.status == .pending || p.status == .partially_paid) &&
      decide (now < p.expiration) && p.stellar_address.isSome

/-- The `for (const payment of payments)` loop of the tick: each
iteration processes one snapshot row against the current store and
accumulates dispatches/events. -/
def tickLoop (env : MonitorEnv) : List Payment → TickResult → TickResult
  | [], acc => acc
  | p :: rest, acc =>
    let r := processPayment env acc.db p
    tickLoop env rest ⟨r.db, acc.dispatched ++ r.dispatched, acc.emitted ++ r.emitted⟩

/-- `runPaymentMonitorTick` (lines 27–155): bulk expiry, then the
per-payment loop over the selected snapshot. -/
def runPaymentMonitorTick (env : MonitorEnv) (now : Int) (db : List Payment) : TickResult :=
  let db0 := expireStale now db
  tickLoop env (activePayments now db0) ⟨db0, [], []⟩

/-- Order on stored cursors: a missing cursor is below everything,
otherwise the string order the code compares with. -/
def cursorLe : Option String → Option String → Prop
  | none, _ => True
  | some _, none => False
  | some a, some b => a ≤ b

instance : ∀ a b : Option String, Decidable (cursorLe a b)
  | none, _ => isTrue trivial
  | some _, none => isFalse fun h => h
  | some a, some b => inferInstanceAs (Decidable (a ≤ b))

/-- The row a lookup by `id` returns (first match). -/
def rowById (db : List Payment) (pid : String) : Option Payment :=
  db.find? fun q => q.id == pid

end Monitor

namespace Verify

/-- External effects of `PaymentContractService.verify_payment`: the
configured contract id (empty when `PAYMENT_CONTRACT_ID` is unset) and
the outcome of `invokeVerifyContract` on a given attempt number with the
given arguments (a thrown error is its message). -/
structure VerifyEnv where
  contractId : String
  invoke : ℕ → String → String → ℚ → Except String String

/-- Result of a `verify_payment` call: the returned boolean, the store
after the call, how many contract invocations were attempted, the
backoff delays slept between attempts (ms), and the manual-intervention
signal when retries were exhausted. -/
structure VerifyOut where
  result : Bool
  db : List Payment
  attemptsMade : ℕ
  delays : List ℕ
  manualIntervention : Option (String × String)
deriving Repr

/-- `const MAX_RETRIES = 3`. -/
def MAX_RETRIES : ℕ := 3

/-- `const baseDelay = 1000`. -/
def baseDelay : ℕ := 1000

/-- The success write (lines 51–58): `onchain_verified: true`,
`contract_tx_hash`, `verification_error: null`. -/
def recordSuccess (pid hash : String) (db : List Payment) : List Payment :=
  updateById db pid fun p =>
    { p with onchain_verified := true, contract_tx_hash := some hash,
             verification_error := none }

/-- The exhaustion write (lines 73–78): only `verification_error`. -/
def recordFailure (pid msg : String) (db : List Payment) : List Payment :=
  updateById db pid fun p => { p with verification_error := some msg }

/-- The `while (attempt < MAX_RETRIES)` loop (lines 46–86). `fuel` bounds
the recursion; every iteration increments `attempt`, so `MAX_RETRIES`
units of fuel make the fuel-exhausted branch (the trailing
`return false`) unreachable. -/
def verifyLoop (env : VerifyEnv) (pid txHash : String) (amount : ℚ) :
    ℕ → ℕ → List Payment → List ℕ → VerifyOut
  | 0, attempt, db, delays => ⟨false, db, attempt, delays, none⟩
  | fuel + 1, attempt, db, delays =>
    match env.invoke attempt pid txHash amount with
    | .ok hash => ⟨true, recordSuccess pid hash db, attempt + 1, delays, none⟩
    | .error e =>
      let a := attempt + 1
      if MAX_RETRIES ≤ a then
        ⟨false, recordFailure pid e db, a, delays, some (pid, e)⟩
      else
        verifyLoop env pid txHash amount fuel a db (delays ++ [baseDelay * 2 ^ (a - 1)])

/-- `verify_payment(paymentId, txHash, amount)` (lines 36–88): bail out
returning `false` when no contract id is configured, else run the retry
loop. -/
def verify_payment (env : VerifyEnv) (pid txHash : String) (amount : ℚ)
    (db : List Payment) : VerifyOut :=
  if env.contractId = "" then ⟨false, db, 0, [], none⟩
  else verifyLoop env pid txHash amount MAX_RETRIES 0 db []

end Verify

namespace Fixtures

/-- A pending payment expecting 100 USDC. -/
def basePayment : Payment :=
  { id := "pay_1", merchantId := "m_1", amount := .num 100, status := .pending,
    expiration := 1000, stellar_address := some "GCUST", last_paging_token := none,
    transaction_hash := none, swept := false, swept_at := none, sweep_tx_hash := none,
    onchain_verified := false, verification_error := none, contract_tx_hash := none,
    confirmed_at := none }

/-- A pending payment whose expiration has already passed. -/
def expiredPending : Payment := { basePayment with id := "pay_exp", expiration := -5 }

/-- A pending payment with a stored cursor. -/
def partialPayment : Payment :=
  { basePayment with id := "pay_part", last_paging_token := some "100" }

/-- An unswept payment in the legacy `paid` status. -/
def paidUnswept : Payment :=
  { basePayment with id := "pay_paid", status := .paid, amount := .num 25 }

/-- A confirmed unswept payment whose address matches its derivation. -/
def confirmedUnswept : Payment :=
  { basePayment with
    id := "pay_conf", status := .confirmed,
    stellar_address := some "PKpay_conf", confirmed_at := some 10 }

/-- A confirmed payment with a non-finite stored amount. -/
def invalidAmountPayment : Payment :=
  { basePayment with
    id := "pay_bad", status := .confirmed, amount := .nonfinite,
    stellar_address := some "PKpay_bad", confirmed_at := some 11 }

/-- An overpaid unswept payment whose address matches its derivation. -/
def overpaidUnswept : Payment :=
  { basePayment with
    id := "pay_v2", status := .overpaid, amount := .num 120,
    stellar_address := some "PKpay_v2", confirmed_at := some 12 }

/-- A confirmed payment whose stored address does not match its
derivation. -/
def mismatchPayment : Payment :=
  { basePayment with
    id := "pay_mm", status := .confirmed,
    stellar_address := some "GOTHER", confirmed_at := some 13 }

/-- An already swept payment. -/
def sweptPayment : Payment :=
  { basePayment with
    id := "pay_done", status := .confirmed, swept := true,
    swept_at := some 1, sweep_tx_hash := some "H0",
    stellar_address := some "PKpay_done" }

/-- Sweep oracle: derivation yields "PK<id>"/"SK<id>", submission
succeeds with hash "HASH". -/
def wSweepEnv : Sweep.SweepEnv :=
  { regenerateKeypair := fun _ pid => .ok ⟨String.append "PK" pid, String.append "SK" pid⟩,
    submitTx := fun _ _ _ => .ok "HASH",
    vaultPublicKey := "GVAULT", now := 50 }

/-- Monitor oracle: every address holds exactly 100 USDC, no new
records. -/
def wMonitorEnv : Monitor.MonitorEnv :=
  { usdcIssuer := "GISS",
    fetch := fun _ _ => .ok ⟨[⟨"USDC", "GISS", 100⟩], []⟩,
    emitFails := fun _ => false }

/-- Monitor oracle: every address holds 40 USDC and one fresh USDC
payment record at paging token "200". -/
def wMonitorEnv2 : Monitor.MonitorEnv :=
  { usdcIssuer := "GISS",
    fetch := fun _ _ =>
      .ok ⟨[⟨"USDC", "GISS", 40⟩],
           [⟨"payment", "credit_alphanum4", "USDC", "GISS", "200", "TX2", "GPAYER"⟩]⟩,
    emitFails := fun _ => false }

/-- Monitor oracle: every address holds 150 USDC and one fresh USDC
payment record at paging token "300". -/
def wMonitorEnv3 : Monitor.MonitorEnv :=
  { usdcIssuer := "GISS",
    fetch := fun _ _ =>
      .ok ⟨[⟨"USDC", "GISS", 150⟩],
           [⟨"payment", "credit_alphanum4", "USDC", "GISS", "300", "TX3", "GPAYER"⟩]⟩,
    emitFails := fun _ => false }

/-- Verifier oracle that always throws. -/
def failVerifyEnv : Verify.VerifyEnv :=
  { contractId := "CONTRACT",
    invoke := fun n _ _ _ => .error (String.append "boom" (toString n)) }

/-- Verifier oracle failing once, then succeeding. -/
def retryVerifyEnv : Verify.VerifyEnv :=
  { contractId := "CONTRACT",
    invoke := fun n _ _ _ => if n = 0 then .error "transient" else .ok "CHASH" }

end Fixtures

/-!
## Theorems

Everything below this point is a property of the definitions above.
-/

namespace Sweep

/-- Componentwise characterization of the sweep loop: each payment's
outcome depends only on that payment and the environment, so the
accumulators decompose pointwise over the selection. -/
theorem sweepLoop_spec (env : SweepEnv) (d : Bool) :
    ∀ (l : List Payment) (s : RunState),
    sweepLoop env d l s =
      { db := applySweepUpdates env d l s.db,
        txHashes := s.txHashes ++ l.filterMap (stepHash env d),
        skipped := s.skipped ++ l.filterMap (stepSkip env d),
        total := s.total + (l.map (stepAmount env d)).sum,
        addressesSwept := s.addressesSwept + l.countP (stepCounted env d),
        submitted := s.submitted ++ l.flatMap (fun p => (sweepStep env d p).2) } := by
  intro l
  induction l with
  | nil =>
    intro s
    simp [sweepLoop, applySweepUpdates]
  | cons p rest ih =>
    intro s
    rw [sweepLoop]
    cases hstep : (sweepStep env d p).1 with
    | skip r =>
      simp only [hstep, ih, applySweepUpdates, stepHash, stepSkip, stepAmount, stepCounted,
        List.filterMap_cons, List.countP_cons, List.map_cons, List.sum_cons, List.flatMap_cons,
        hstep]
      simp [hstep, List.append_assoc, add_assoc, add_comm, add_left_comm]
    | swOk h a =>
      simp only [hstep, ih, applySweepUpdates]
      simp [stepHash, stepSkip, stepAmount, stepCounted, hstep, List.append_assoc,
        add_assoc, add_comm, add_left_comm]
    | dryCount a =>
      simp only [hstep, ih, applySweepUpdates]
      simp [stepHash, stepSkip, stepAmount, stepCounted, hstep, List.append_assoc,
        add_assoc, add_comm, add_left_comm]

end Sweep

namespace Sweep

/-- Every submission attempt recorded by one step is for that step's
payment. -/
theorem sweepStep_submission_payment (env : SweepEnv) (d : Bool) (p : Payment) :
    ∀ s ∈ (sweepStep env d p).2, s.payment = p := by
  intro s hs
  unfold sweepStep sweepFinish at hs
  rcases hA : p.amount with q | _ <;> simp only [hA] at hs
  · by_cases hq : q ≤ 0
    · simp [hq] at hs
    · simp only [hq, if_false, reduceIte] at hs
      rcases hk : env.regenerateKeypair p.merchantId p.id with e | kp <;>
        simp only [hk] at hs
      · simp at hs
      · have hfin : ∀ hs' : s ∈ (if d = true then ((StepOutcome.dryCount q : StepOutcome), ([] : List Submission))
            else
              match env.submitTx kp.secretKey env.vaultPublicKey q with
              | Except.error e => (StepOutcome.skip e,
                  [⟨p, kp.secretKey, env.vaultPublicKey, q⟩])
              | Except.ok h => (StepOutcome.swOk h q,
                  [⟨p, kp.secretKey, env.vaultPublicKey, q⟩])).2, s.payment = p := by
          intro hs'
          rcases hd : d <;> simp only [hd] at hs'
          · rcases hsub : env.submitTx kp.secretKey env.vaultPublicKey q with e | h <;>
              simp only [hsub] at hs' <;> simp at hs' <;> simp [hs']
          · simp at hs'
        rcases ha : p.stellar_address with _ | addr <;> simp only [ha] at hs
        · exact hfin hs
        · by_cases hne : kp.publicKey = addr
          · simp only [hne, ne_eq, not_true_eq_false, if_false, reduceIte] at hs
            exact hfin hs
          · simp [hne] at hs
  · simp at hs

/-- A payment failing validation is skipped with no submission, in any
mode. -/
theorem sweepStep_skip_of_invalid (env : SweepEnv) (d : Bool) (p : Payment)
    (h : sweepValid env p = false) : ∃ r, sweepStep env d p = (.skip r, []) := by
  unfold sweepValid at h
  unfold sweepStep
  rcases hA : p.amount with q | _ <;> simp only [hA] at h ⊢
  · by_cases hq : q ≤ 0
    · simp [hq]
    · simp only [hq, if_false, reduceIte] at h ⊢
      rcases hk : env.regenerateKeypair p.merchantId p.id with e | kp <;>
        simp only [hk] at h ⊢
      · exact ⟨_, rfl⟩
      · rcases ha : p.stellar_address with _ | addr <;> simp only [ha] at h ⊢
        · simp at h
        · simp only [beq_eq_false_iff_ne, ne_eq] at h
          simp [h]
  · exact ⟨_, rfl⟩

/-- A payment passing validation is, in dry-run mode, counted with its
amount and produces no submission. -/
theorem sweepStep_dry_of_valid (env : SweepEnv) (p : Payment)
    (h : sweepValid env p = true) :
    sweepStep env true p = (.dryCount (validAmount p), []) := by
  unfold sweepValid at h
  unfold sweepStep sweepFinish validAmount
  rcases hA : p.amount with q | _ <;> simp only [hA] at h ⊢
  · by_cases hq : q ≤ 0
    · simp [hq] at h
    · simp only [hq, if_false, reduceIte] at h ⊢
      rcases hk : env.regenerateKeypair p.merchantId p.id with e | kp <;>
        simp only [hk] at h ⊢
      · simp at h
      · rcases ha : p.stellar_address with _ | addr <;> simp only [ha] at h ⊢
        simpa using h
  · simp at h

end Sweep

namespace Sweep

/-- Dry-run steps never record a submission attempt. -/
theorem sweepStep_dry_no_submission (env : SweepEnv) (p : Payment) :
    (sweepStep env true p).2 = [] := by
  cases hv : sweepValid env p
  · obtain ⟨r, hr⟩ := sweepStep_skip_of_invalid env true p hv
    rw [hr]
  · rw [sweepStep_dry_of_valid env p hv]

/-- Dry-run steps never produce a transaction hash. -/
theorem stepHash_dry (env : SweepEnv) (p : Payment) : stepHash env true p = none := by
  unfold stepHash
  cases hv : sweepValid env p
  · obtain ⟨r, hr⟩ := sweepStep_skip_of_invalid env true p hv
    rw [hr]
  · rw [sweepStep_dry_of_valid env p hv]

/-- In dry-run mode a step is counted exactly when the payment passes
validation. -/
theorem stepCounted_dry (env : SweepEnv) (p : Payment) :
    stepCounted env true p = sweepValid env p := by
  unfold stepCounted
  cases hv : sweepValid env p
  · obtain ⟨r, hr⟩ := sweepStep_skip_of_invalid env true p hv
    rw [hr]
  · rw [sweepStep_dry_of_valid env p hv]

/-- In dry-run mode a step contributes its amount exactly when valid. -/
theorem stepAmount_dry (env : SweepEnv) (p : Payment) :
    stepAmount env true p = if sweepValid env p then validAmount p else 0 := by
  unfold stepAmount
  cases hv : sweepValid env p
  · obtain ⟨r, hr⟩ := sweepStep_skip_of_invalid env true p hv
    rw [hr]
    simp [hv]
  · rw [sweepStep_dry_of_valid env p hv]
    simp [hv]

/-- A dry run never writes to the store. -/
theorem applySweepUpdates_dry (env : SweepEnv) :
    ∀ (l : List Payment) (db : List Payment), applySweepUpdates env true l db = db := by
  intro l
  induction l with
  | nil => intro db; rfl
  | cons p rest ih =>
    intro db
    unfold applySweepUpdates
    cases hv : sweepValid env p
    · obtain ⟨r, hr⟩ := sweepStep_skip_of_invalid env true p hv
      simp [hr, ih]
    · rw [sweepStep_dry_of_valid env p hv]
      exact ih db

/-- A dry run records no submission attempts at all. -/
theorem flatMap_submissions_dry (env : SweepEnv) :
    ∀ l : List Payment, (l.flatMap fun p => (sweepStep env true p).2) = [] := by
  intro l
  induction l with
  | nil => rfl
  | cons p rest ih => simp [List.flatMap_cons, sweepStep_dry_no_submission, ih]

/-- A dry run produces no transaction hashes. -/
theorem filterMap_stepHash_dry (env : SweepEnv) :
    ∀ l : List Payment, l.filterMap (stepHash env true) = [] := by
  intro l
  induction l with
  | nil => rfl
  | cons p rest ih => simp [List.filterMap_cons, stepHash_dry, ih]

/-- The dry-run count is the number of valid payments. -/
theorem countP_dry (env : SweepEnv) :
    ∀ l : List Payment, l.countP (stepCounted env true) = (l.filter (sweepValid env)).length := by
  intro l
  induction l with
  | nil => rfl
  | cons p rest ih =>
    rw [List.countP_cons, List.filter_cons]
    cases hv : sweepValid env p <;> simp [stepCounted_dry, hv, ih]

/-- The dry-run total is the sum of the valid payments' amounts. -/
theorem sum_stepAmount_dry (env : SweepEnv) :
    ∀ l : List Payment,
      (l.map (stepAmount env true)).sum = ((l.filter (sweepValid env)).map validAmount).sum := by
  intro l
  induction l with
  | nil => rfl
  | cons p rest ih =>
    rw [List.map_cons, List.sum_cons, List.filter_cons, stepAmount_dry]
    cases hv : sweepValid env p <;> simp [hv, ih]

end Sweep

namespace Monitor

/-- Looking a row up commutes with an id-preserving rewrite of the
store. -/
theorem rowById_map_idPres (g : Payment → Payment) (hg : ∀ q, (g q).id = q.id) :
    ∀ (db : List Payment) (pid : String),
      rowById (db.map g) pid = (rowById db pid).map g := by
  intro db pid
  induction db with
  | nil => rfl
  | cons a l ih =>
    rw [List.map_cons]
    unfold rowById at ih ⊢
    cases hp : (a.id == pid) with
    | false =>
      rw [List.find?_cons_of_neg, List.find?_cons_of_neg, ih]
      · simpa using hp
      · simpa [hg] using hp
    | true =>
      rw [List.find?_cons_of_pos, List.find?_cons_of_pos]
      · rfl
      · simpa using hp
      · simpa [hg] using hp

/-- Looking a row up through `updateById`: the found row is rewritten
exactly when its id is the updated one. -/
theorem rowById_updateById (f : Payment → Payment) (hf : ∀ q, (f q).id = q.id)
    (db : List Payment) (pid qid : String) :
    rowById (updateById db qid f) pid =
      (rowById db pid).map fun r => if r.id = qid then f r else r := by
  unfold updateById
  exact rowById_map_idPres _ (fun q => by split <;> simp [hf]) db pid

/-- A found row satisfies the lookup predicate. -/
theorem rowById_id (db : List Payment) (pid : String) (r : Payment)
    (h : rowById db pid = some r) : r.id = pid := by
  have := List.find?_some h
  simpa using this

/-- With duplicate-free ids, lookup of a member's id returns that
member. -/
theorem rowById_eq_of_nodup (db : List Payment) (hN : (db.map Payment.id).Nodup)
    (p : Payment) (hp : p ∈ db) : rowById db p.id = some p := by
  unfold rowById
  induction db with
  | nil => cases hp
  | cons a l ih =>
    rw [List.map_cons, List.nodup_cons] at hN
    rcases List.mem_cons.mp hp with rfl | hp'
    · rw [List.find?_cons_of_pos]
      simp
    · have ha : a.id ≠ p.id := by
        intro h
        exact hN.1 (h ▸ List.mem_map_of_mem Payment.id hp')
      rw [List.find?_cons_of_neg]
      · exact ih hN.2 hp'
      · simpa using ha

/-- With duplicate-free ids, any member whose id is `pid` is the row the
lookup returns. -/
theorem mem_eq_of_nodup (db : List Payment) (hN : (db.map Payment.id).Nodup)
    (a p : Payment) (ha : a ∈ db) (hp : rowById db p.id = some p) (hid : a.id = p.id) :
    a = p := by
  have := rowById_eq_of_nodup db hN a ha
  rw [hid, hp] at this
  exact (Option.some.injEq _ _ ▸ this).symm

end Monitor

namespace Monitor

theorem cursorLe_refl : ∀ a : Option String, cursorLe a a := by
  intro a
  cases a with
  | none => trivial
  | some s => exact le_refl s

theorem cursorLe_trans {a b c : Option String} (h1 : cursorLe a b) (h2 : cursorLe b c) :
    cursorLe a c := by
  cases a with
  | none => trivial
  | some x =>
    cases b with
    | none => exact absurd h1 (by simp [cursorLe])
    | some y =>
      cases c with
      | none => exact absurd h2 (by simp [cursorLe])
      | some z => exact le_trans (α := String) h1 h2

theorem string_empty_le (s : String) : "" ≤ s := by
  rw [String.le_iff_toList_le]
  simp

/-- A candidate that beats the running maximum is above it in the cursor
order. -/
theorem cursorLe_of_beats (candidate : String) (cur : Option String)
    (h : pagingTokenBeats candidate cur = true) : cursorLe cur (some candidate) := by
  unfold pagingTokenBeats at h
  cases cur with
  | none => trivial
  | some t =>
    rw [Bool.and_eq_true, Bool.or_eq_true] at h
    by_cases ht : t = ""
    · subst ht
      exact string_empty_le candidate
    · rcases h.2 with h2 | h2
      · rw [Bool.not_eq_true'] at h2
        simp [strTruthy, ht] at h2
      · exact le_of_lt (of_decide_eq_true h2)

/-- The cursor maximum after one conditional replacement is above the
old one whenever the replacement condition guarantees it. -/
theorem scan_cursor_aux (c : Bool) (s : ScanState) (tok : String)
    (h : c = true → cursorLe s.latestPagingToken (some tok)) :
    cursorLe s.latestPagingToken
      (if c then { s with latestPagingToken := some tok } else s).latestPagingToken := by
  cases c
  · exact cursorLe_refl _
  · exact h rfl

/-- One scan step never moves the running cursor maximum down. -/
theorem scanRecord_cursor (issuer : String) (s : ScanState) (r : LedgerRecord) :
    cursorLe s.latestPagingToken (scanRecord issuer s r).latestPagingToken := by
  unfold scanRecord
  dsimp only
  split
  case isTrue hb =>
    have hle : cursorLe s.latestPagingToken (some r.paging_token) :=
      cursorLe_of_beats _ _ hb
    split
    · exact hle
    · exact hle
  case isFalse hb =>
    split
    · exact cursorLe_refl _
    · exact cursorLe_refl _

/-- The page scan never moves the cursor below its starting value. -/
theorem scanPage_cursor (issuer : String) (cursor : Option String)
    (records : List LedgerRecord) :
    cursorLe cursor (scanPage issuer cursor records).latestPagingToken := by
  unfold scanPage
  suffices h : ∀ (l : List LedgerRecord) (s : ScanState),
      cursorLe s.latestPagingToken (l.foldl (scanRecord issuer) s).latestPagingToken by
    exact h records ⟨cursor, none, none⟩
  intro l
  induction l with
  | nil => intro s; exact cursorLe_refl _
  | cons r rest ih =>
    intro s
    rw [List.foldl_cons]
    exact cursorLe_trans (scanRecord_cursor issuer s r) (ih _)

end Monitor

namespace Monitor

/-- Structural characterization of one tick iteration's store effect: it
either leaves the store alone or rewrites the processed id with a
function that keeps `id` and the sweep columns and never lowers the
cursor below the snapshot's. -/
theorem processPayment_shape (env : MonitorEnv) (db : List Payment) (p : Payment) :
    (processPayment env db p).db = db ∨
    ∃ f : Payment → Payment,
      (processPayment env db p).db = updateById db p.id f ∧
      ∀ q, (f q).id = q.id ∧ (f q).swept = q.swept ∧ (f q).swept_at = q.swept_at ∧
        (f q).sweep_tx_hash = q.sweep_tx_hash ∧
        cursorLe p.last_paging_token (f q).last_paging_token := by
  rcases ha : p.stellar_address with _ | addr
  · left
    simp only [processPayment, ha]
  · rcases hf : env.fetch addr p.last_paging_token with e | view
    · left
      simp only [processPayment, ha, hf]
    · have hscan := scanPage_cursor env.usdcIssuer p.last_paging_token view.records
      simp only [processPayment, ha, hf]
      cases hns : newStatusFor p.amount (totalReceivedOf env.usdcIssuer view) with
      | none =>
        simp only [hns]
        split
        · right
          exact ⟨_, rfl, fun q => ⟨rfl, rfl, rfl, rfl, hscan⟩⟩
        · exact Or.inl rfl
      | some ns =>
        simp only [hns]
        split
        · split
          · right
            exact ⟨_, rfl, fun q => ⟨rfl, rfl, rfl, rfl, hscan⟩⟩
          · right
            exact ⟨_, rfl, fun q => ⟨rfl, rfl, rfl, rfl, hscan⟩⟩
        · split
          · right
            exact ⟨_, rfl, fun q => ⟨rfl, rfl, rfl, rfl, hscan⟩⟩
          · exact Or.inl rfl

end Monitor

/-- A row of an `updateById` result is an original row or its rewrite. -/
theorem mem_updateById {db : List Payment} {pid : String} {f : Payment → Payment}
    {r : Payment} (hr : r ∈ updateById db pid f) : ∃ q ∈ db, r = q ∨ r = f q := by
  unfold updateById at hr
  obtain ⟨q, hq, hqr⟩ := List.mem_map.mp hr
  refine ⟨q, hq, ?_⟩
  by_cases h : q.id = pid
  · right
    rw [← hqr, if_pos h]
  · left
    rw [← hqr, if_neg h]

namespace Monitor

/-- An update keyed on a different id does not change what a lookup
returns. -/
theorem rowById_updateById_ne (f : Payment → Payment) (hf : ∀ q, (f q).id = q.id)
    (db : List Payment) {pid qid : String} (hne : qid ≠ pid) :
    rowById (updateById db qid f) pid = rowById db pid := by
  rw [rowById_updateById f hf]
  cases hfind : rowById db pid with
  | none => rfl
  | some r =>
    have hr := rowById_id db pid r hfind
    simp [hr, hne.symm]

/-- Processing the loop in two chunks. -/
theorem tickLoop_append (env : MonitorEnv) :
    ∀ (l1 l2 : List Payment) (acc : TickResult),
      tickLoop env (l1 ++ l2) acc = tickLoop env l2 (tickLoop env l1 acc) := by
  intro l1
  induction l1 with
  | nil => intro l2 acc; rfl
  | cons p rest ih =>
    intro l2 acc
    rw [List.cons_append, tickLoop, tickLoop]
    exact ih l2 _

/-- Iterations over other ids do not change what a lookup returns. -/
theorem tickLoop_frame (env : MonitorEnv) (pid : String) :
    ∀ (l : List Payment) (acc : TickResult), (∀ q ∈ l, q.id ≠ pid) →
      rowById (tickLoop env l acc).db pid = rowById acc.db pid := by
  intro l
  induction l with
  | nil => intro acc _; rfl
  | cons p rest ih =>
    intro acc hl
    rw [tickLoop]
    rw [ih _ fun q hq => hl q (List.mem_cons_of_mem p hq)]
    rcases processPayment_shape env acc.db p with hdb | ⟨f, hdb, hfprop⟩
    · rw [hdb]
    · rw [hdb, rowById_updateById_ne f (fun q => (hfprop q).1) acc.db
        (hl p (List.mem_cons_self p rest))]

/-- One iteration preserves "every row with this id is swept". -/
theorem processPayment_sweptInv (env : MonitorEnv) (db : List Payment) (p : Payment)
    (pid : String) (h : ∀ q ∈ db, q.id = pid → q.swept = true) :
    ∀ r ∈ (processPayment env db p).db, r.id = pid → r.swept = true := by
  rcases processPayment_shape env db p with hdb | ⟨f, hdb, hfprop⟩
  · rw [hdb]; exact h
  · rw [hdb]
    intro r hr hrid
    obtain ⟨q, hq, hcase⟩ := mem_updateById hr
    rcases hcase with rfl | rfl
    · exact h _ hq hrid
    · rw [(hfprop q).2.1]
      exact h _ hq (by rw [← (hfprop q).1]; exact hrid)

/-- The whole loop preserves "every row with this id is swept". -/
theorem tickLoop_sweptInv (env : MonitorEnv) (pid : String) :
    ∀ (l : List Payment) (acc : TickResult),
      (∀ q ∈ acc.db, q.id = pid → q.swept = true) →
      ∀ r ∈ (tickLoop env l acc).db, r.id = pid → r.swept = true := by
  intro l
  induction l with
  | nil => intro acc h; exact h
  | cons p rest ih =>
    intro acc h
    rw [tickLoop]
    exact ih _ (processPayment_sweptInv env acc.db p pid h)

/-- The bulk expiry preserves "every row with this id is swept". -/
theorem expireStale_sweptInv (now : Int) (db : List Payment) (pid : String)
    (h : ∀ q ∈ db, q.id = pid → q.swept = true) :
    ∀ r ∈ expireStale now db, r.id = pid → r.swept = true := by
  intro r hr
  unfold expireStale at hr
  obtain ⟨q, hq, hqr⟩ := List.mem_map.mp hr
  intro hrid
  by_cases hc : (q.status = PaymentStatus.pending ∨ q.status = PaymentStatus.partially_paid)
      ∧ q.expiration ≤ now
  · rw [← hqr, if_pos hc] at hrid ⊢
    exact h q hq hrid
  · rw [← hqr, if_neg hc] at hrid ⊢
    exact h q hq hrid

/-- A whole tick preserves "every row with this id is swept". -/
theorem tick_sweptInv (env : MonitorEnv) (now : Int) (db : List Payment) (pid : String)
    (h : ∀ q ∈ db, q.id = pid → q.swept = true) :
    ∀ r ∈ (runPaymentMonitorTick env now db).db, r.id = pid → r.swept = true := by
  unfold runPaymentMonitorTick
  exact tickLoop_sweptInv env pid _ _ (expireStale_sweptInv now db pid h)

end Monitor

namespace Monitor

/-- The bulk expiry does not change the stored ids (or their order). -/
theorem expireStale_map_id (now : Int) (db : List Payment) :
    (expireStale now db).map Payment.id = db.map Payment.id := by
  unfold expireStale
  rw [List.map_map]
  apply List.map_congr_left
  intro q _
  simp only [Function.comp_apply]
  split <;> rfl

/-- Lookup through the bulk expiry. -/
theorem rowById_expireStale (now : Int) (db : List Payment) (pid : String) :
    rowById (expireStale now db) pid =
      (rowById db pid).map fun p =>
        if (p.status = PaymentStatus.pending ∨ p.status = PaymentStatus.partially_paid) ∧
            p.expiration ≤ now
        then { p with status := PaymentStatus.expired } else p := by
  unfold expireStale
  exact rowById_map_idPres _ (fun q => by split <;> rfl) db pid

/-- What the tick leaves in the store at an active payment's id: the
result of that payment's own iteration, computed against a store that
still holds the snapshot, untouched by the other iterations. -/
theorem tick_rowById_active (env : MonitorEnv) (now : Int) (db : List Payment)
    (hN : (db.map Payment.id).Nodup) (p : Payment)
    (hp : p ∈ activePayments now (expireStale now db)) :
    ∃ acc : TickResult,
      rowById acc.db p.id = some p ∧
      rowById (runPaymentMonitorTick env now db).db p.id =
        rowById (processPayment env acc.db p).db p.id := by
  have hN0 : ((expireStale now db).map Payment.id).Nodup := by
    rw [expireStale_map_id]; exact hN
  have hNact : ((activePayments now (expireStale now db)).map Payment.id).Nodup :=
    List.Nodup.sublist (List.Sublist.map Payment.id (List.filter_sublist _)) hN0
  obtain ⟨l1, l2, hsplit⟩ := List.append_of_mem hp
  have hNsplit := hsplit ▸ hNact
  rw [List.map_append, List.map_cons] at hNsplit
  have hl2 : ∀ q ∈ l2, q.id ≠ p.id := by
    intro q hq heq
    have h2 := (List.nodup_cons.mp (List.Nodup.of_append_right hNsplit)).1
    exact h2 (heq ▸ List.mem_map_of_mem Payment.id hq)
  have hl1 : ∀ q ∈ l1, q.id ≠ p.id := by
    intro q hq heq
    have hdisj := List.disjoint_of_nodup_append hNsplit
    exact hdisj (List.mem_map_of_mem Payment.id hq)
      (heq ▸ List.mem_cons_self p.id _)
  have hpdb0 : p ∈ expireStale now db := by
    have hp' := hp
    unfold activePayments at hp'
    exact (List.mem_filter.mp hp').1
  refine ⟨tickLoop env l1 ⟨expireStale now db, [], []⟩, ?_, ?_⟩
  · rw [tickLoop_frame env p.id l1 _ hl1]
    exact rowById_eq_of_nodup _ hN0 p hpdb0
  · simp only [runPaymentMonitorTick]
    rw [hsplit, tickLoop_append, tickLoop]
    rw [tickLoop_frame env p.id l2 _ hl2]

end Monitor

namespace Monitor

/-- Core of the cursor-monotonicity invariant: after a tick, the row at
any stored payment's id exists and its cursor is at or above the
payment's cursor before the tick. -/
theorem tick_cursor_mono_row (env : MonitorEnv) (now : Int) (db : List Payment)
    (hN : (db.map Payment.id).Nodup) (p : Payment) (hp : p ∈ db) :
    ∃ r, rowById (runPaymentMonitorTick env now db).db p.id = some r ∧
      cursorLe p.last_paging_token r.last_paging_token := by
  set g : Payment → Payment := fun q =>
    if (q.status = PaymentStatus.pending ∨ q.status = PaymentStatus.partially_paid) ∧
        q.expiration ≤ now
    then { q with status := PaymentStatus.expired } else q with hg
  have hgid : ∀ q, (g q).id = q.id := fun q => by
    rw [hg]; dsimp only; split <;> rfl
  have hgcur : ∀ q, (g q).last_paging_token = q.last_paging_token := fun q => by
    rw [hg]; dsimp only; split <;> rfl
  have hN0 : ((expireStale now db).map Payment.id).Nodup := by
    rw [expireStale_map_id]; exact hN
  have hrow0 : rowById (expireStale now db) p.id = some (g p) := by
    rw [rowById_expireStale, rowById_eq_of_nodup db hN p hp]
    rfl
  have hrow0' : rowById (expireStale now db) (g p).id = some (g p) := by
    rw [hgid]; exact hrow0
  by_cases hact : g p ∈ activePayments now (expireStale now db)
  · obtain ⟨acc, hacc, hfinal⟩ := tick_rowById_active env now db hN (g p) hact
    rcases processPayment_shape env acc.db (g p) with hdb | ⟨f, hdb, hfprop⟩
    · refine ⟨g p, ?_, ?_⟩
      · rw [← hgid p] at *
        rw [hfinal, hdb]
        exact hacc
      · rw [hgcur]
        exact cursorLe_refl _
    · refine ⟨f (g p), ?_, ?_⟩
      · rw [← hgid p] at *
        rw [hfinal, hdb, rowById_updateById f (fun q => (hfprop q).1), hacc]
        simp
      · have := (hfprop (g p)).2.2.2.2
        rw [hgcur] at this
        exact this
  · have hall : ∀ q ∈ activePayments now (expireStale now db), q.id ≠ p.id := by
      intro q hq heq
      have hqdb0 : q ∈ expireStale now db := by
        have hq' := hq
        unfold activePayments at hq'
        exact (List.mem_filter.mp hq').1
      have : q = g p := mem_eq_of_nodup _ hN0 q (g p) hqdb0 hrow0'
        (by rw [heq, hgid])
      exact hact (this ▸ hq)
    refine ⟨g p, ?_, ?_⟩
    · simp only [runPaymentMonitorTick]
      rw [tickLoop_frame env p.id _ _ hall]
      exact hrow0
    · rw [hgcur]
      exact cursorLe_refl _

end Monitor

namespace Verify

/-- The store after any number of retry iterations is either untouched,
or carries the success write, or carries the exhaustion write. -/
theorem verifyLoop_db_cases (env : VerifyEnv) (pid txHash : String) (amount : ℚ) :
    ∀ (fuel attempt : ℕ) (db : List Payment) (delays : List ℕ),
      (verifyLoop env pid txHash amount fuel attempt db delays).db = db ∨
      (∃ h, (verifyLoop env pid txHash amount fuel attempt db delays).db =
        recordSuccess pid h db) ∨
      (∃ e, (verifyLoop env pid txHash amount fuel attempt db delays).db =
        recordFailure pid e db) := by
  intro fuel
  induction fuel with
  | zero => intro attempt db delays; left; rfl
  | succ n ih =>
    intro attempt db delays
    rw [verifyLoop]
    cases hi : env.invoke attempt pid txHash amount with
    | ok h =>
      right; left
      exact ⟨h, rfl⟩
    | error e =>
      dsimp only
      split
      · right; right
        exact ⟨e, rfl⟩
      · exact ih _ _ _

/-- The loop performs at most `fuel` further invocations. -/
theorem verifyLoop_attempts (env : VerifyEnv) (pid txHash : String) (amount : ℚ) :
    ∀ (fuel attempt : ℕ) (db : List Payment) (delays : List ℕ),
      (verifyLoop env pid txHash amount fuel attempt db delays).attemptsMade ≤
        attempt + fuel := by
  intro fuel
  induction fuel with
  | zero => intro attempt db delays; exact Nat.le_refl _
  | succ n ih =>
    intro attempt db delays
    rw [verifyLoop]
    cases hi : env.invoke attempt pid txHash amount with
    | ok h =>
      dsimp only
      omega
    | error e =>
      dsimp only
      split
      · dsimp only
        omega
      · calc (verifyLoop env pid txHash amount n (attempt + 1) db
              (delays ++ [baseDelay * 2 ^ (attempt + 1 - 1)])).attemptsMade
            ≤ (attempt + 1) + n := ih _ _ _
          _ ≤ attempt + (n + 1) := by omega

/-- `verify_payment` touches neither `status` nor the sweep columns of
any row. -/
theorem verify_payment_frame (env : VerifyEnv) (pid txHash : String) (amount : ℚ)
    (db : List Payment) :
    ∀ r ∈ (verify_payment env pid txHash amount db).db,
      ∃ q ∈ db, r.id = q.id ∧ r.status = q.status ∧ r.swept = q.swept ∧
        r.swept_at = q.swept_at ∧ r.sweep_tx_hash = q.sweep_tx_hash := by
  intro r hr
  have hdb : (verify_payment env pid txHash amount db).db = db ∨
      (∃ h, (verify_payment env pid txHash amount db).db = recordSuccess pid h db) ∨
      (∃ e, (verify_payment env pid txHash amount db).db = recordFailure pid e db) := by
    unfold verify_payment
    split
    · left; rfl
    · exact verifyLoop_db_cases env pid txHash amount MAX_RETRIES 0 db []
  rcases hdb with hc | ⟨h, hc⟩ | ⟨e, hc⟩
  · rw [hc] at hr
    exact ⟨r, hr, rfl, rfl, rfl, rfl, rfl⟩
  · rw [hc] at hr
    obtain ⟨q, hq, hcase⟩ := mem_updateById hr
    rcases hcase with rfl | rfl
    · exact ⟨_, hq, rfl, rfl, rfl, rfl, rfl⟩
    · exact ⟨_, hq, rfl, rfl, rfl, rfl, rfl⟩
  · rw [hc] at hr
    obtain ⟨q, hq, hcase⟩ := mem_updateById hr
    rcases hcase with rfl | rfl
    · exact ⟨_, hq, rfl, rfl, rfl, rfl, rfl⟩
    · exact ⟨_, hq, rfl, rfl, rfl, rfl, rfl⟩

end Verify

namespace Sweep

/-- The sweep's store writes preserve "every row with this id is swept":
the only write is `markSwept`, which sets `swept` to `true`. -/
theorem applySweepUpdates_sweptInv (env : SweepEnv) (d : Bool) (pid : String) :
    ∀ (l : List Payment) (db : List Payment),
      (∀ q ∈ db, q.id = pid → q.swept = true) →
      ∀ r ∈ applySweepUpdates env d l db, r.id = pid → r.swept = true := by
  intro l
  induction l with
  | nil => intro db h; exact h
  | cons p rest ih =>
    intro db h
    unfold applySweepUpdates
    cases hstep : (sweepStep env d p).1 with
    | skip r => exact ih db h
    | dryCount a => exact ih db h
    | swOk hsh a =>
      apply ih
      intro q hq hqid
      have hq2 : q ∈ updateById db p.id (markSwept hsh env.now) := hq
      obtain ⟨q3, hq3, hcase⟩ := mem_updateById hq2
      rcases hcase with rfl | rfl
      · exact h _ hq3 hqid
      · rfl

end Sweep

namespace Sweep

/-- An eligible payment is unswept. -/
theorem sweepEligible_swept {p : Payment} (h : sweepEligible p = true) :
    p.swept = false := by
  unfold sweepEligible at h
  rw [Bool.and_eq_true, Bool.and_eq_true] at h
  simpa using h.1.1

/-- The selection only returns rows of the store. -/
theorem getUnsweptPaidPayments_subset (limit : ℕ) (db : List Payment) :
    getUnsweptPaidPayments limit db ⊆ db := by
  unfold getUnsweptPaidPayments
  intro q hq
  exact (List.mem_filter.mp (List.take_subset limit _ hq)).1

/-- Selected rows are eligible. -/
theorem getUnsweptPaidPayments_eligible (limit : ℕ) (db : List Payment) :
    ∀ q ∈ getUnsweptPaidPayments limit db, sweepEligible q = true := by
  unfold getUnsweptPaidPayments
  intro q hq
  exact (List.mem_filter.mp (List.take_subset limit _ hq)).2

end Sweep

/-- Claim C10: a sweep run whose `limit` option is absent, non-finite,
or not positive resolves its selection cap to the configured batch limit
(`SWEEP_BATCH_LIMIT`, defaulting to 200) rather than the given value. -/
theorem C10_limit_fallback (optLimit : Option JNum) (sweepBatchLimitEnv : Option ℕ)
    (h : optLimit = none ∨ optLimit = some .nonfinite ∨
      ∃ q, optLimit = some (.num q) ∧ q ≤ 0) :
    Sweep.effectiveLimit optLimit sweepBatchLimitEnv =
      (sweepBatchLimitEnv.getD 200 : ℕ) ∧
    Sweep.runCap ⟨optLimit, none, none⟩ sweepBatchLimitEnv =
      sweepBatchLimitEnv.getD 200 := by
  have he : Sweep.effectiveLimit optLimit sweepBatchLimitEnv =
      (sweepBatchLimitEnv.getD 200 : ℕ) := by
    rcases h with rfl | rfl | ⟨q, rfl, hq⟩
    · rfl
    · rfl
    · simp only [Sweep.effectiveLimit]
      rw [if_neg (not_lt.mpr hq)]
  refine ⟨he, ?_⟩
  unfold Sweep.runCap
  rw [he]
  simp

/-- Witness for C10 at the concrete input `limit = 0` with
`SWEEP_BATCH_LIMIT` unset: the cap is 200, not 0. -/
theorem C10_limit_fallback_witness :
    Sweep.effectiveLimit (some (.num 0)) none = (200 : ℚ) ∧
    Sweep.runCap ⟨some (.num 0), none, none⟩ none = 200 := by
  have h := C10_limit_fallback (some (.num 0)) none
    (Or.inr (Or.inr ⟨0, rfl, le_refl 0⟩))
  simpa using h

/-- Counterexample to claim C7 as stated: a `paid`, unswept payment with
a custody address is selected by the sweep query although its status is
neither `confirmed` nor `overpaid`, so selection is not equivalent to
"status ∈ \x7bconfirmed, overpaid\x7d and swept = false". -/
theorem C7_counterexample :
    Fixtures.paidUnswept ∈ Sweep.getUnsweptPaidPayments 1 [Fixtures.paidUnswept] ∧
    ¬(Fixtures.paidUnswept.status = .confirmed ∨
      Fixtures.paidUnswept.status = .overpaid) ∧
    Fixtures.paidUnswept.swept = false := by
  decide

/-- Claim C7 (amended): the sweep query returns exactly the rows with
`swept = false`, a present custody address, and status among
`confirmed`, `overpaid`, `paid` (capped at the query limit; with the cap
at the store's size the selection is exactly the eligible rows). -/
theorem C7_selection_characterization (db : List Payment) (p : Payment) :
    (p ∈ Sweep.getUnsweptPaidPayments db.length db ↔
      p ∈ db ∧ Sweep.sweepEligible p = true) ∧
    (Sweep.sweepEligible p = true ↔
      p.swept = false ∧ p.stellar_address.isSome = true ∧
        (p.status = .confirmed ∨ p.status = .overpaid ∨ p.status = .paid)) := by
  constructor
  · unfold Sweep.getUnsweptPaidPayments
    rw [List.take_of_length_le (List.length_filter_le _ _)]
    exact List.mem_filter
  · unfold Sweep.sweepEligible
    simp only [Bool.and_eq_true, Bool.or_eq_true, beq_iff_eq]
    tauto

/-- Claim C4: a dry-run sweep leaves every payment row unchanged (in
particular `swept`, `swept_at`, `sweep_tx_hash`), attempts no ledger
submission and reports no transaction hash, while the returned result
counts the selected payments that pass validation and totals their
amounts. -/
theorem C4_dry_run_frame (env : Sweep.SweepEnv) (envB : Option ℕ)
    (opts : Sweep.SweepOptions) (db : List Payment)
    (h : opts.dryRun = some true) :
    (Sweep.sweepPaidPayments env envB opts db).db = db ∧
    (Sweep.sweepPaidPayments env envB opts db).submitted = [] ∧
    (Sweep.sweepPaidPayments env envB opts db).result.txHashes = [] ∧
    (Sweep.sweepPaidPayments env envB opts db).result.addressesSwept =
      ((Sweep.getUnsweptPaidPayments (Sweep.runCap opts envB) db).filter
        (Sweep.sweepValid env)).length ∧
    (Sweep.sweepPaidPayments env envB opts db).result.totalAmount =
      (((Sweep.getUnsweptPaidPayments (Sweep.runCap opts envB) db).filter
        (Sweep.sweepValid env)).map Sweep.validAmount).sum := by
  have hd : (opts.dryRun == some true) = true := by simp [h]
  simp only [Sweep.sweepPaidPayments, hd, Sweep.sweepLoop_spec]
  refine ⟨?_, ?_, ?_, ?_, ?_⟩
  · exact Sweep.applySweepUpdates_dry env _ db
  · simpa using Sweep.flatMap_submissions_dry env _
  · simpa using Sweep.filterMap_stepHash_dry env _
  · simpa using Sweep.countP_dry env _
  · simpa using Sweep.sum_stepAmount_dry env _

/-- Witness for C4 at a concrete input: one valid confirmed payment, dry
run; the store is unchanged, nothing is submitted, one address and its
amount are reported. -/
theorem C4_dry_run_frame_witness :
    (Sweep.sweepPaidPayments Fixtures.wSweepEnv none ⟨none, none, some true⟩
      [Fixtures.confirmedUnswept]).db = [Fixtures.confirmedUnswept] ∧
    (Sweep.sweepPaidPayments Fixtures.wSweepEnv none ⟨none, none, some true⟩
      [Fixtures.confirmedUnswept]).submitted = [] ∧
    (Sweep.sweepPaidPayments Fixtures.wSweepEnv none ⟨none, none, some true⟩
      [Fixtures.confirmedUnswept]).result.addressesSwept = 1 ∧
    (Sweep.sweepPaidPayments Fixtures.wSweepEnv none ⟨none, none, some true⟩
      [Fixtures.confirmedUnswept]).result.totalAmount = 100 := by
  have h := C4_dry_run_frame Fixtures.wSweepEnv none ⟨none, none, some true⟩
    [Fixtures.confirmedUnswept] rfl
  refine ⟨h.1, h.2.1, ?_, ?_⟩
  · rw [h.2.2.2.1]
    decide
  · rw [h.2.2.2.2]
    have hlist : (Sweep.getUnsweptPaidPayments
        (Sweep.runCap ⟨none, none, some true⟩ none) [Fixtures.confirmedUnswept]).filter
          (Sweep.sweepValid Fixtures.wSweepEnv) = [Fixtures.confirmedUnswept] := by
      decide
    rw [hlist]
    simp [Sweep.validAmount, Fixtures.confirmedUnswept, Fixtures.basePayment]

namespace Sweep

/-- A counted step contributes no skip entry. -/
theorem stepSkip_of_counted (env : SweepEnv) (d : Bool) (p : Payment)
    (h : stepCounted env d p = true) : stepSkip env d p = none := by
  unfold stepCounted at h
  unfold stepSkip
  cases hstep : (sweepStep env d p).1 with
  | skip r =>
    rw [hstep] at h
    exact absurd h (by simp)
  | swOk hh a => rfl
  | dryCount a => rfl

end Sweep

/-- Claim C5: a sweep run over a selection with one failing payment and
N counted payments completes with N counted successes and exactly the
failing payment in `skipped` with its reason; a per-payment failure
never aborts the remaining payments (the run is total and returns a
result by construction). -/
theorem C5_failure_isolation (env : Sweep.SweepEnv) (envB : Option ℕ)
    (opts : Sweep.SweepOptions) (db l1 l2 : List Payment) (b : Payment) (r : String)
    (hsel : Sweep.getUnsweptPaidPayments (Sweep.runCap opts envB) db = l1 ++ b :: l2)
    (hb : (Sweep.sweepStep env (opts.dryRun == some true) b).1 = .skip r)
    (hok : ∀ p ∈ l1 ++ l2, Sweep.stepCounted env (opts.dryRun == some true) p = true) :
    (Sweep.sweepPaidPayments env envB opts db).result.skipped = [(b.id, r)] ∧
    (Sweep.sweepPaidPayments env envB opts db).result.addressesSwept =
      l1.length + l2.length := by
  simp only [Sweep.sweepPaidPayments, Sweep.sweepLoop_spec, hsel]
  constructor
  · rw [List.filterMap_append, List.filterMap_cons]
    have h1 : l1.filterMap (Sweep.stepSkip env (opts.dryRun == some true)) = [] := by
      rw [List.filterMap_eq_nil_iff]
      intro p hp
      exact Sweep.stepSkip_of_counted _ _ _ (hok p (List.mem_append_left _ hp))
    have h2 : l2.filterMap (Sweep.stepSkip env (opts.dryRun == some true)) = [] := by
      rw [List.filterMap_eq_nil_iff]
      intro p hp
      exact Sweep.stepSkip_of_counted _ _ _ (hok p (List.mem_append_right _ hp))
    have hb' : Sweep.stepSkip env (opts.dryRun == some true) b = some (b.id, r) := by
      unfold Sweep.stepSkip
      rw [hb]
    simp [h1, h2, hb']
  · rw [List.countP_append, List.countP_cons]
    have h1 : l1.countP (Sweep.stepCounted env (opts.dryRun == some true)) = l1.length :=
      List.countP_eq_length.mpr fun p hp => hok p (List.mem_append_left _ hp)
    have h2 : l2.countP (Sweep.stepCounted env (opts.dryRun == some true)) = l2.length :=
      List.countP_eq_length.mpr fun p hp => hok p (List.mem_append_right _ hp)
    have hbF : Sweep.stepCounted env (opts.dryRun == some true) b = false := by
      unfold Sweep.stepCounted
      rw [hb]
    simp [h1, h2, hbF]

/-- Witness for C5 at a concrete input: a selection of one valid
confirmed payment, one payment with a non-finite amount, and one valid
overpaid payment completes with 2 successes and 1 recorded skip. -/
theorem C5_failure_isolation_witness :
    (Sweep.sweepPaidPayments Fixtures.wSweepEnv none ⟨none, none, none⟩
      [Fixtures.confirmedUnswept, Fixtures.invalidAmountPayment,
        Fixtures.overpaidUnswept]).result.skipped = [("pay_bad", "Invalid amount")] ∧
    (Sweep.sweepPaidPayments Fixtures.wSweepEnv none ⟨none, none, none⟩
      [Fixtures.confirmedUnswept, Fixtures.invalidAmountPayment,
        Fixtures.overpaidUnswept]).result.addressesSwept = 2 := by
  have h := C5_failure_isolation Fixtures.wSweepEnv none ⟨none, none, none⟩
    [Fixtures.confirmedUnswept, Fixtures.invalidAmountPayment, Fixtures.overpaidUnswept]
    [Fixtures.confirmedUnswept] [Fixtures.overpaidUnswept]
    Fixtures.invalidAmountPayment "Invalid amount"
    (by decide) (by decide) (by decide)
  exact ⟨h.1, by simpa using h.2⟩

/-- Claim C6: when the re-derived public key differs from the stored
custody address, the payment is skipped with the recorded reason
"Derived address mismatch" and no submission is ever signed with the
re-derived key for that payment, in any run. -/
theorem C6_mismatch_never_signs (env : Sweep.SweepEnv) (p : Payment) (q : ℚ)
    (kp : Sweep.Keypair) (addr : String)
    (hq : p.amount = .num q) (hpos : 0 < q)
    (hkp : env.regenerateKeypair p.merchantId p.id = .ok kp)
    (haddr : p.stellar_address = some addr) (hne : kp.publicKey ≠ addr) :
    (∀ d : Bool, Sweep.sweepStep env d p = (.skip "Derived address mismatch", [])) ∧
    ∀ (envB : Option ℕ) (opts : Sweep.SweepOptions) (db : List Payment),
      ∀ s ∈ (Sweep.sweepPaidPayments env envB opts db).submitted,
        s.payment ≠ p := by
  have hstep : ∀ d : Bool,
      Sweep.sweepStep env d p = (.skip "Derived address mismatch", []) := by
    intro d
    unfold Sweep.sweepStep
    simp only [hq, hkp, haddr]
    rw [if_neg (not_le.mpr hpos), if_pos hne]
  refine ⟨hstep, ?_⟩
  intro envB opts db s hs
  simp only [Sweep.sweepPaidPayments, Sweep.sweepLoop_spec, List.nil_append] at hs
  obtain ⟨p', hp', hs'⟩ := List.mem_flatMap.mp hs
  have hpay := Sweep.sweepStep_submission_payment env _ p' s hs'
  intro hcontra
  have hp'eq : p' = p := by rw [← hpay, hcontra]
  rw [hp'eq, hstep] at hs'
  exact absurd hs' (by simp)

/-- Witness for C6 at a concrete input: a confirmed payment whose
stored address differs from the derived key is skipped, and a run over a
store holding it signs nothing for it. -/
theorem C6_mismatch_never_signs_witness :
    Sweep.sweepStep Fixtures.wSweepEnv false Fixtures.mismatchPayment =
      (.skip "Derived address mismatch", []) ∧
    ∀ s ∈ (Sweep.sweepPaidPayments Fixtures.wSweepEnv none ⟨none, none, none⟩
      [Fixtures.mismatchPayment]).submitted, s.payment ≠ Fixtures.mismatchPayment := by
  have h := C6_mismatch_never_signs Fixtures.wSweepEnv Fixtures.mismatchPayment 100
    ⟨"PKpay_mm", "SKpay_mm"⟩ "GOTHER" rfl (by norm_num) rfl rfl (by decide)
  exact ⟨h.1 false, h.2 none ⟨none, none, none⟩ [Fixtures.mismatchPayment]⟩

/-- Claim C1: once every row with a given id is swept, the sweep
selection never returns it, no sweep run ever records a ledger
submission for it, and neither a sweep run, a monitor tick, nor a
verification call ever resets its `swept` flag; moreover a successful
sweep write sets `swept`, `swept_at` and `sweep_tx_hash` together. -/
theorem C1_swept_idempotent (envS : Sweep.SweepEnv) (envM : Monitor.MonitorEnv)
    (envV : Verify.VerifyEnv) (envB : Option ℕ) (opts : Sweep.SweepOptions)
    (db : List Payment) (now : Int) (pid vpid vtx : String) (vamt : ℚ)
    (h : ∀ q ∈ db, q.id = pid → q.swept = true) :
    (∀ q ∈ Sweep.getUnsweptPaidPayments (Sweep.runCap opts envB) db, q.id ≠ pid) ∧
    (∀ s ∈ (Sweep.sweepPaidPayments envS envB opts db).submitted,
      s.payment.id ≠ pid) ∧
    (∀ r ∈ (Sweep.sweepPaidPayments envS envB opts db).db,
      r.id = pid → r.swept = true) ∧
    (∀ r ∈ (Monitor.runPaymentMonitorTick envM now db).db,
      r.id = pid → r.swept = true) ∧
    (∀ r ∈ (Verify.verify_payment envV vpid vtx vamt db).db,
      r.id = pid → r.swept = true) ∧
    (∀ (hsh : String) (t : Int) (q : Payment),
      (Sweep.markSwept hsh t q).swept = true ∧
      (Sweep.markSwept hsh t q).swept_at = some t ∧
      (Sweep.markSwept hsh t q).sweep_tx_hash = some hsh) := by
  have hsel : ∀ q ∈ Sweep.getUnsweptPaidPayments (Sweep.runCap opts envB) db,
      q.id ≠ pid := by
    intro q hq heq
    have hswf : q.swept = false :=
      Sweep.sweepEligible_swept (Sweep.getUnsweptPaidPayments_eligible _ db q hq)
    have hswt : q.swept = true :=
      h q (Sweep.getUnsweptPaidPayments_subset _ db hq) heq
    rw [hswf] at hswt
    exact Bool.false_ne_true hswt
  refine ⟨hsel, ?_, ?_, ?_, ?_, ?_⟩
  · intro s hs
    simp only [Sweep.sweepPaidPayments, Sweep.sweepLoop_spec, List.nil_append] at hs
    obtain ⟨p', hp', hs'⟩ := List.mem_flatMap.mp hs
    have hpay := Sweep.sweepStep_submission_payment envS _ p' s hs'
    rw [hpay]
    exact hsel p' hp'
  · simp only [Sweep.sweepPaidPayments, Sweep.sweepLoop_spec]
    exact Sweep.applySweepUpdates_sweptInv envS _ pid _ db h
  · exact Monitor.tick_sweptInv envM now db pid h
  · intro r hr hrid
    obtain ⟨q, hq, _, _, hsw, _, _⟩ := Verify.verify_payment_frame envV vpid vtx vamt db r hr
    rw [hsw]
    exact h q hq (by rw [← ‹r.id = q.id›]; exact hrid)
  · intro hsh t q
    exact ⟨rfl, rfl, rfl⟩

/-- Witness for C1 at a concrete input: a store holding one already
swept payment; the selection skips it and every operation keeps it
swept. -/
theorem C1_swept_idempotent_witness :
    (∀ q ∈ [Fixtures.sweptPayment], q.id = "pay_done" → q.swept = true) ∧
    (∀ q ∈ Sweep.getUnsweptPaidPayments
      (Sweep.runCap ⟨none, none, none⟩ none) [Fixtures.sweptPayment],
      q.id ≠ "pay_done") ∧
    (∀ r ∈ (Monitor.runPaymentMonitorTick Fixtures.wMonitorEnv 0
      [Fixtures.sweptPayment]).db, r.id = "pay_done" → r.swept = true) := by
  have h := C1_swept_idempotent Fixtures.wSweepEnv Fixtures.wMonitorEnv
    Fixtures.failVerifyEnv none ⟨none, none, none⟩ [Fixtures.sweptPayment] 0
    "pay_done" "pay_done" "TX" 100 (by decide)
  exact ⟨by decide, h.1, h.2.2.2.1⟩

namespace Monitor

/-- When the tick's classification yields a status for a fetched
payment, the row ends the iteration carrying exactly that status
(written by the update branch, or already held when nothing changed). -/
theorem processPayment_status_some (env : MonitorEnv) (dbx : List Payment)
    (p : Payment) (addr : String) (view : AccountView) (ns : PaymentStatus)
    (haddr : p.stellar_address = some addr)
    (hfetch : env.fetch addr p.last_paging_token = .ok view)
    (hacc : rowById dbx p.id = some p)
    (hns : newStatusFor p.amount (totalReceivedOf env.usdcIssuer view) = some ns) :
    (rowById (processPayment env dbx p).db p.id).map Payment.status = some ns := by
  simp only [processPayment, haddr, hfetch, hns]
  by_cases hcond : ns ≠ p.status ∨
      strTruthy (scanPage env.usdcIssuer p.last_paging_token view.records).latestTxHash
        = true
  · rw [if_pos hcond]
    split
    · rw [rowById_updateById
        (applyStatusUpdate ns (scanPage env.usdcIssuer p.last_paging_token view.records))
        (fun q => rfl), hacc]
      simp [applyStatusUpdate]
    · rw [rowById_updateById
        (applyStatusUpdate ns (scanPage env.usdcIssuer p.last_paging_token view.records))
        (fun q => rfl), hacc]
      simp [applyStatusUpdate]
  · rw [if_neg hcond]
    push_neg at hcond
    have hstat : ns = p.status := hcond.1
    split
    · rw [rowById_updateById
        (applyCursorUpdate (scanPage env.usdcIssuer p.last_paging_token view.records))
        (fun q => rfl), hacc]
      simp [applyCursorUpdate, hstat]
    · rw [hacc]
      simp [hstat]

/-- A tick whose selection never touches an id leaves that id's row as
the bulk expiry left it. -/
theorem tick_frame_all (env : MonitorEnv) (now : Int) (db : List Payment) (pid : String)
    (hframe : ∀ a ∈ activePayments now (expireStale now db), a.id ≠ pid) :
    rowById (runPaymentMonitorTick env now db).db pid =
      rowById (expireStale now db) pid := by
  simp only [runPaymentMonitorTick]
  exact tickLoop_frame env pid _ _ hframe

end Monitor

/-- Claim C2: in an observer tick, a monitored payment whose fetched
cumulative balance is `received` against expected amount `expected` ends
the tick `confirmed` when `received = expected`, `overpaid` when
`received > expected`, and `partially_paid` when
`0 < received < expected`; and a `pending`/`partially_paid` row whose
expiration is at or before the tick time is `expired` already by the
bulk update at the start of the tick — independent of any ledger fetch —
and stays `expired` at the end of the tick. -/
theorem C2_classification (env : Monitor.MonitorEnv) (now : Int) (db : List Payment)
    (hN : (db.map Payment.id).Nodup) :
    (∀ (p : Payment) (addr : String) (view : Monitor.AccountView)
      (expected received : ℚ),
      p ∈ Monitor.activePayments now (Monitor.expireStale now db) →
      p.stellar_address = some addr →
      env.fetch addr p.last_paging_token = .ok view →
      Monitor.totalReceivedOf env.usdcIssuer view = received →
      p.amount = .num expected →
      ((received = expected →
        (Monitor.rowById (Monitor.runPaymentMonitorTick env now db).db p.id).map
          Payment.status = some .confirmed) ∧
       (expected < received →
        (Monitor.rowById (Monitor.runPaymentMonitorTick env now db).db p.id).map
          Payment.status = some .overpaid) ∧
       (0 < received → received < expected →
        (Monitor.rowById (Monitor.runPaymentMonitorTick env now db).db p.id).map
          Payment.status = some .partially_paid))) ∧
    (∀ q ∈ db, (q.status = .pending ∨ q.status = .partially_paid) →
      q.expiration ≤ now →
      (Monitor.rowById (Monitor.expireStale now db) q.id).map Payment.status =
        some .expired ∧
      (Monitor.rowById (Monitor.runPaymentMonitorTick env now db).db q.id).map
        Payment.status = some .expired) := by
  constructor
  · intro p addr view expected received hp haddr hfetch hrecv hexp
    obtain ⟨acc, hacc, hfinal⟩ := Monitor.tick_rowById_active env now db hN p hp
    have happly : ∀ ns, Monitor.newStatusFor p.amount
        (Monitor.totalReceivedOf env.usdcIssuer view) = some ns →
        (Monitor.rowById (Monitor.runPaymentMonitorTick env now db).db p.id).map
          Payment.status = some ns := by
      intro ns hns
      rw [hfinal]
      exact Monitor.processPayment_status_some env acc.db p addr view ns
        haddr hfetch hacc hns
    refine ⟨?_, ?_, ?_⟩
    · intro heq
      apply happly
      rw [hexp, hrecv, heq]
      unfold Monitor.newStatusFor
      dsimp only
      rw [if_pos (le_refl expected), if_neg (lt_irrefl expected)]
    · intro hlt
      apply happly
      rw [hexp, hrecv]
      unfold Monitor.newStatusFor
      dsimp only
      rw [if_pos (le_of_lt hlt), if_pos hlt]
    · intro hpos hlt
      apply happly
      rw [hexp, hrecv]
      unfold Monitor.newStatusFor
      dsimp only
      rw [if_neg (not_le.mpr hlt), if_pos hpos]
  · intro q hq hst hexp
    have hrow0 : Monitor.rowById (Monitor.expireStale now db) q.id =
        some { q with status := .expired } := by
      rw [Monitor.rowById_expireStale, Monitor.rowById_eq_of_nodup db hN q hq]
      simp [hst, hexp]
    refine ⟨by rw [hrow0]; rfl, ?_⟩
    have hN0 : ((Monitor.expireStale now db).map Payment.id).Nodup := by
      rw [Monitor.expireStale_map_id]; exact hN
    have hframe : ∀ a ∈ Monitor.activePayments now (Monitor.expireStale now db),
        a.id ≠ q.id := by
      intro a ha heq
      have hadb0 : a ∈ Monitor.expireStale now db := by
        have ha' := ha
        unfold Monitor.activePayments at ha'
        exact (List.mem_filter.mp ha').1
      have haq : a = { q with status := PaymentStatus.expired } :=
        Monitor.mem_eq_of_nodup _ hN0 a _ hadb0 hrow0 heq
      have ha' := ha
      unfold Monitor.activePayments at ha'
      have hcond := (List.mem_filter.mp ha').2
      rw [haq] at hcond
      simp at hcond
    rw [Monitor.tick_frame_all env now db q.id hframe, hrow0]
    rfl

/-- Witness for C2 at a concrete input: a store with a pending payment
expecting 100 whose address holds exactly 100 (ends `confirmed`) and a
pending payment whose expiration has passed (ends `expired`). -/
theorem C2_classification_witness :
    (Monitor.rowById (Monitor.runPaymentMonitorTick Fixtures.wMonitorEnv 0
      [Fixtures.basePayment, Fixtures.expiredPending]).db "pay_1").map
      Payment.status = some .confirmed ∧
    (Monitor.rowById (Monitor.runPaymentMonitorTick Fixtures.wMonitorEnv 0
      [Fixtures.basePayment, Fixtures.expiredPending]).db "pay_exp").map
      Payment.status = some .expired := by
  have h := C2_classification Fixtures.wMonitorEnv 0
    [Fixtures.basePayment, Fixtures.expiredPending] (by decide)
  constructor
  · exact (h.1 Fixtures.basePayment "GCUST" ⟨[⟨"USDC", "GISS", 100⟩], []⟩ 100 100
      (by decide) rfl rfl rfl rfl).1 rfl
  · exact (h.2 Fixtures.expiredPending (by decide) (Or.inl rfl) (by decide)).2

/-- Claim C3: across one observer tick, the persisted cursor of every
stored payment only moves up: the row still exists after the tick and
its `last_paging_token` is at or above its value before the tick; and at
the scan level the running maximum is only ever replaced by a returned
record's paging token that beats it. -/
theorem C3_cursor_monotone (env : Monitor.MonitorEnv) (now : Int) (db : List Payment)
    (hN : (db.map Payment.id).Nodup) :
    (∀ p ∈ db, ∃ r,
      Monitor.rowById (Monitor.runPaymentMonitorTick env now db).db p.id = some r ∧
      Monitor.cursorLe p.last_paging_token r.last_paging_token) ∧
    (∀ (issuer : String) (s : Monitor.ScanState) (rec : Monitor.LedgerRecord),
      (Monitor.scanRecord issuer s rec).latestPagingToken = s.latestPagingToken ∨
      (Monitor.pagingTokenBeats rec.paging_token s.latestPagingToken = true ∧
       (Monitor.scanRecord issuer s rec).latestPagingToken = some rec.paging_token)) := by
  constructor
  · intro p hp
    exact Monitor.tick_cursor_mono_row env now db hN p hp
  · intro issuer s rec
    unfold Monitor.scanRecord
    dsimp only
    split
    case isTrue hb =>
      right
      refine ⟨hb, ?_⟩
      split
      · rfl
      · rfl
    case isFalse hb =>
      left
      split
      · rfl
      · rfl

/-- Witness for C3 at a concrete input: a payment with stored cursor
"100" whose page holds a record at token "200"; after the tick the row's
cursor is at or above "100". -/
theorem C3_cursor_monotone_witness :
    ∃ r, Monitor.rowById (Monitor.runPaymentMonitorTick Fixtures.wMonitorEnv2 0
      [Fixtures.partialPayment]).db "pay_part" = some r ∧
      Monitor.cursorLe (some "100") r.last_paging_token := by
  have h := (C3_cursor_monotone Fixtures.wMonitorEnv2 0 [Fixtures.partialPayment]
    (by decide)).1 Fixtures.partialPayment (by decide)
  simpa using h

/-- Counterexample to claim C9 as stated: a pending payment whose
address balance reaches the expected amount while the returned records
page holds no matching transfer — the tick persists `confirmed` but
invokes no verification dispatch and emits no settled event. -/
theorem C9_counterexample :
    (Monitor.rowById (Monitor.runPaymentMonitorTick Fixtures.wMonitorEnv 0
      [Fixtures.basePayment]).db "pay_1").map Payment.status = some .confirmed ∧
    Fixtures.basePayment.status = .pending ∧
    (Monitor.runPaymentMonitorTick Fixtures.wMonitorEnv 0
      [Fixtures.basePayment]).dispatched = [] ∧
    (Monitor.runPaymentMonitorTick Fixtures.wMonitorEnv 0
      [Fixtures.basePayment]).emitted = [] := by
  decide

/-- Claim C9 (amended): on a monitored payment's transition into
`confirmed`/`overpaid`, the tick persists the new status, and the
verification dispatch together with the settled event fire exactly when
the scanned page also produced a new matching transaction hash (with no
new matching transfer record, the status update is persisted but no
dispatch happens); the dispatch/emission path is fire-and-forget: the
persisted store is the same whether or not event emission throws. -/
theorem C9_dispatch_characterization (env : Monitor.MonitorEnv) (f' : String → Bool)
    (dbx : List Payment) (p : Payment) (addr : String) (view : Monitor.AccountView)
    (ns : PaymentStatus)
    (haddr : p.stellar_address = some addr)
    (hfetch : env.fetch addr p.last_paging_token = .ok view)
    (hacc : Monitor.rowById dbx p.id = some p)
    (hst : p.status = .pending ∨ p.status = .partially_paid)
    (hns : Monitor.newStatusFor p.amount
      (Monitor.totalReceivedOf env.usdcIssuer view) = some ns) :
    ((Monitor.processPayment { env with emitFails := f' } dbx p).db =
      (Monitor.processPayment env dbx p).db ∧
     (Monitor.processPayment { env with emitFails := f' } dbx p).dispatched =
      (Monitor.processPayment env dbx p).dispatched) ∧
    ((ns = .confirmed ∨ ns = .overpaid) →
      (Monitor.rowById (Monitor.processPayment env dbx p).db p.id).map
        Payment.status = some ns ∧
      ((Monitor.processPayment env dbx p).dispatched ≠ [] ↔
        Monitor.strTruthy (Monitor.scanPage env.usdcIssuer p.last_paging_token
          view.records).latestTxHash = true)) := by
  constructor
  · simp only [Monitor.processPayment, haddr, hfetch, hns]
    constructor
    · split
      · split
        · rfl
        · rfl
      · split
        · rfl
        · rfl
    · split
      · split
        · rfl
        · rfl
      · split
        · rfl
        · rfl
  · intro hdisj
    refine ⟨Monitor.processPayment_status_some env dbx p addr view ns
      haddr hfetch hacc hns, ?_⟩
    have hne : ns ≠ p.status := by
      rcases hst with h1 | h1 <;> rcases hdisj with h2 | h2 <;> rw [h1, h2] <;> decide
    simp only [Monitor.processPayment, haddr, hfetch, hns]
    rw [if_pos (Or.inl hne)]
    by_cases htx : Monitor.strTruthy (Monitor.scanPage env.usdcIssuer
        p.last_paging_token view.records).latestTxHash = true
    · rw [if_pos ⟨hdisj, htx⟩]
      simp [htx]
    · rw [if_neg (fun hc => htx hc.2)]
      simp [htx]

/-- Witness for the amended C9 at a concrete input: an overpaying
balance with a fresh matching record — the status is persisted, the
dispatch fires, and the store is unchanged under a throwing event
emitter. -/
theorem C9_dispatch_characterization_witness :
    (Monitor.rowById (Monitor.processPayment Fixtures.wMonitorEnv3
      [Fixtures.basePayment] Fixtures.basePayment).db "pay_1").map
      Payment.status = some .overpaid ∧
    (Monitor.processPayment Fixtures.wMonitorEnv3 [Fixtures.basePayment]
      Fixtures.basePayment).dispatched ≠ [] ∧
    (Monitor.processPayment { Fixtures.wMonitorEnv3 with emitFails := fun _ => true }
      [Fixtures.basePayment] Fixtures.basePayment).db =
      (Monitor.processPayment Fixtures.wMonitorEnv3 [Fixtures.basePayment]
        Fixtures.basePayment).db := by
  have h := C9_dispatch_characterization Fixtures.wMonitorEnv3 (fun _ => true)
    [Fixtures.basePayment] Fixtures.basePayment "GCUST"
    ⟨[⟨"USDC", "GISS", 150⟩],
     [⟨"payment", "credit_alphanum4", "USDC", "GISS", "300", "TX3", "GPAYER"⟩]⟩
    .overpaid rfl rfl (by decide) (Or.inl rfl) (by decide)
  have h2 := h.2 (Or.inr rfl)
  exact ⟨h2.1, h2.2.mpr (by decide), h.1.1⟩

namespace Verify

/-- One successful invocation ends the loop with the success write. -/
theorem verifyLoop_ok_step (env : VerifyEnv) (pid txh : String) (amt : ℚ)
    (k n : ℕ) (db : List Payment) (ds : List ℕ) (h : String)
    (hok : env.invoke k pid txh amt = .ok h) :
    verifyLoop env pid txh amt (n + 1) k db ds =
      ⟨true, recordSuccess pid h db, k + 1, ds, none⟩ := by
  rw [verifyLoop]
  simp only [hok]

/-- A failed invocation below the retry bound sleeps the exponential
backoff and continues. -/
theorem verifyLoop_err_step (env : VerifyEnv) (pid txh : String) (amt : ℚ)
    (k n : ℕ) (db : List Payment) (ds : List ℕ) (e : String)
    (herr : env.invoke k pid txh amt = .error e) (hlt : k + 1 < MAX_RETRIES) :
    verifyLoop env pid txh amt (n + 1) k db ds =
      verifyLoop env pid txh amt n (k + 1) db (ds ++ [baseDelay * 2 ^ k]) := by
  rw [verifyLoop]
  simp only [herr]
  rw [if_neg (not_le.mpr hlt)]
  simp

/-- A failed invocation at the retry bound ends the loop with the
exhaustion write and the manual-intervention signal. -/
theorem verifyLoop_err_last (env : VerifyEnv) (pid txh : String) (amt : ℚ)
    (k n : ℕ) (db : List Payment) (ds : List ℕ) (e : String)
    (herr : env.invoke k pid txh amt = .error e) (hge : MAX_RETRIES ≤ k + 1) :
    verifyLoop env pid txh amt (n + 1) k db ds =
      ⟨false, recordFailure pid e db, k + 1, ds, some (pid, e)⟩ := by
  rw [verifyLoop]
  simp only [herr]
  rw [if_pos hge]

end Verify

/-- Claim C8: `verify_payment` attempts the contract invocation at most
3 times; a success at attempt `k` (after `k` failures, having slept the
exponential backoff delays) persists the success write — which sets
`onchain_verified` and clears `verification_error` — and returns `true`;
three failures persist the last error into `verification_error`, emit
the manual-intervention signal, return `false` after exactly 3 attempts
and the delays 1000ms and 2000ms, and in every case neither `status` nor
`swept` of any row changes. -/
theorem C8_verify_retry (env : Verify.VerifyEnv) (pid txh : String) (amt : ℚ)
    (db : List Payment) :
    (Verify.verify_payment env pid txh amt db).attemptsMade ≤ 3 ∧
    (∀ r ∈ (Verify.verify_payment env pid txh amt db).db,
      ∃ q ∈ db, r.id = q.id ∧ r.status = q.status ∧ r.swept = q.swept) ∧
    (env.contractId ≠ "" →
      (∀ (k : ℕ) (h : String), k < 3 →
        (∀ j, j < k → ∃ e, env.invoke j pid txh amt = .error e) →
        env.invoke k pid txh amt = .ok h →
        Verify.verify_payment env pid txh amt db =
          ⟨true, Verify.recordSuccess pid h db, k + 1,
            (List.range k).map (fun j => Verify.baseDelay * 2 ^ j), none⟩) ∧
      (∀ errs : ℕ → String,
        (∀ j, j < 3 → env.invoke j pid txh amt = .error (errs j)) →
        Verify.verify_payment env pid txh amt db =
          ⟨false, Verify.recordFailure pid (errs 2) db, 3,
            [Verify.baseDelay, Verify.baseDelay * 2], some (pid, errs 2)⟩)) := by
  refine ⟨?_, ?_, ?_⟩
  · unfold Verify.verify_payment
    split
    · exact Nat.zero_le 3
    · have hb := Verify.verifyLoop_attempts env pid txh amt Verify.MAX_RETRIES 0 db []
      simpa [Verify.MAX_RETRIES] using hb
  · intro r hr
    obtain ⟨q, hq, h1, h2, h3, _, _⟩ :=
      Verify.verify_payment_frame env pid txh amt db r hr
    exact ⟨q, hq, h1, h2, h3⟩
  · intro hc
    constructor
    · intro k h hk hfail hok
      interval_cases k
      · calc Verify.verify_payment env pid txh amt db
            = Verify.verifyLoop env pid txh amt (2 + 1) 0 db [] := by
              unfold Verify.verify_payment
              rw [if_neg hc]
              rfl
          _ = ⟨true, Verify.recordSuccess pid h db, 0 + 1, [], none⟩ :=
              Verify.verifyLoop_ok_step env pid txh amt 0 2 db [] h hok
      · obtain ⟨e0, he0⟩ := hfail 0 (by omega)
        calc Verify.verify_payment env pid txh amt db
            = Verify.verifyLoop env pid txh amt (2 + 1) 0 db [] := by
              unfold Verify.verify_payment
              rw [if_neg hc]
              rfl
          _ = Verify.verifyLoop env pid txh amt (1 + 1) (0 + 1) db
              ([] ++ [Verify.baseDelay * 2 ^ 0]) :=
              Verify.verifyLoop_err_step env pid txh amt 0 2 db [] e0 he0 (by decide)
          _ = ⟨true, Verify.recordSuccess pid h db, 1 + 1,
              [] ++ [Verify.baseDelay * 2 ^ 0], none⟩ :=
              Verify.verifyLoop_ok_step env pid txh amt 1 1 db _ h hok
      · obtain ⟨e0, he0⟩ := hfail 0 (by omega)
        obtain ⟨e1, he1⟩ := hfail 1 (by omega)
        calc Verify.verify_payment env pid txh amt db
            = Verify.verifyLoop env pid txh amt (2 + 1) 0 db [] := by
              unfold Verify.verify_payment
              rw [if_neg hc]
              rfl
          _ = Verify.verifyLoop env pid txh amt (1 + 1) (0 + 1) db
              ([] ++ [Verify.baseDelay * 2 ^ 0]) :=
              Verify.verifyLoop_err_step env pid txh amt 0 2 db [] e0 he0 (by decide)
          _ = Verify.verifyLoop env pid txh amt (0 + 1) (1 + 1) db
              ([] ++ [Verify.baseDelay * 2 ^ 0] ++ [Verify.baseDelay * 2 ^ 1]) :=
              Verify.verifyLoop_err_step env pid txh amt 1 1 db _ e1 he1 (by decide)
          _ = ⟨true, Verify.recordSuccess pid h db, 2 + 1,
              [] ++ [Verify.baseDelay * 2 ^ 0] ++ [Verify.baseDelay * 2 ^ 1], none⟩ :=
              Verify.verifyLoop_ok_step env pid txh amt 2 0 db _ h hok
    · intro errs hfails
      calc Verify.verify_payment env pid txh amt db
          = Verify.verifyLoop env pid txh amt (2 + 1) 0 db [] := by
            unfold Verify.verify_payment
            rw [if_neg hc]
            rfl
        _ = Verify.verifyLoop env pid txh amt (1 + 1) (0 + 1) db
            ([] ++ [Verify.baseDelay * 2 ^ 0]) :=
            Verify.verifyLoop_err_step env pid txh amt 0 2 db []
              (errs 0) (hfails 0 (by omega)) (by decide)
        _ = Verify.verifyLoop env pid txh amt (0 + 1) (1 + 1) db
            ([] ++ [Verify.baseDelay * 2 ^ 0] ++ [Verify.baseDelay * 2 ^ 1]) :=
            Verify.verifyLoop_err_step env pid txh amt 1 1 db _
              (errs 1) (hfails 1 (by omega)) (by decide)
        _ = ⟨false, Verify.recordFailure pid (errs 2) db, 2 + 1,
            [] ++ [Verify.baseDelay * 2 ^ 0] ++ [Verify.baseDelay * 2 ^ 1],
            some (pid, errs 2)⟩ :=
            Verify.verifyLoop_err_last env pid txh amt 2 0 db _
              (errs 2) (hfails 2 (by omega)) (by decide)

/-- Witness for C8 at concrete inputs: a verifier that fails once then
succeeds returns `true` after 2 attempts and one 1000ms backoff; a
verifier that always fails returns `false` after exactly 3 attempts. -/
theorem C8_verify_retry_witness :
    Verify.verify_payment Fixtures.retryVerifyEnv "pay_1" "TX" 100
      [Fixtures.basePayment] =
      ⟨true, Verify.recordSuccess "pay_1" "CHASH" [Fixtures.basePayment], 2,
        [Verify.baseDelay], none⟩ ∧
    (Verify.verify_payment Fixtures.failVerifyEnv "pay_1" "TX" 100
      [Fixtures.basePayment]).result = false ∧
    (Verify.verify_payment Fixtures.failVerifyEnv "pay_1" "TX" 100
      [Fixtures.basePayment]).attemptsMade = 3 := by
  have hs := ((C8_verify_retry Fixtures.retryVerifyEnv "pay_1" "TX" 100
    [Fixtures.basePayment]).2.2 (by decide)).1 1 "CHASH" (by omega)
    (fun j hj => by interval_cases j; exact ⟨"transient", rfl⟩) rfl
  have hf := ((C8_verify_retry Fixtures.failVerifyEnv "pay_1" "TX" 100
    [Fixtures.basePayment]).2.2 (by decide)).2 (fun n => String.append "boom" (toString n))
    (fun j hj => rfl)
  exact ⟨hs, by rw [hf], by rw [hf]⟩
